import Mathlib

set_option linter.unusedSectionVars false
set_option linter.dupNamespace false

/-!
# cache2go: the cache table engine

A shallow embedding of `coderead/cache` (`cacheitem.go`, `cachetable.go`,
`cache.go`, `errors.go`) and the properties of its operations.

## Modelling conventions

* `time.Time` is an integer instant and `time.Duration` an integer number of
  nanoseconds, both kept as integers; `now.Sub(t)` stays within the 64-bit range
  (`Time.Sub`), and sums and differences that the source computes on 64-bit values
  wrap around (`wrap64`).  Every operation that reads the clock (`time.Now()`) reads
  it once on each of its paths and takes that reading as the argument `now`.
* `map[interface{}]*Item` is an association list with unique keys (`AList`).  The
  map stores pointers: an update made through a pointer that was read from the map
  (`KeepAlive`) is written back to the slot the pointer was read from.
* A run is a `World`: the table together with the `trace` of the calls the
  operation makes to its environment, in program order: mutex calls, user
  callbacks, timer calls, the logger, started goroutines.  Each call is also kept
  with the map as it is at that moment (`seen`).
  `go table.expirationCheck()` is recorded as started, and the sweep is an operation
  of its own.
* A `sync.RWMutex` is free, held shared or held exclusive (`LockState`, `lockStep`).
  An unlock in a mode in which the lock is not held is a fatal error of the runtime:
  the program ends there, no deferred call runs, and the operation does not return.
  An operation that can end so returns `none` as its result, together with the world
  at the fatal call.  Every operation is entered with the table lock and the item
  locks free.  Where the calls of an operation on a mutex pair up, they are recorded
  only, and `scan` checks on the trace that they all return.
* User callbacks are named function values; a call is recorded with its argument and
  has no effect on the table.  The data loader is a function from the key and
  the extra arguments to an optional item.
* `sort.Sort` of the standard library is a parameter of `MostAccessed`, known only by
  what it promises (`SortsByLess`).
* A method that calls itself (`Item.AccessedAt`) takes the allowed depth of calls as
  `fuel`.
-/

namespace Cache

/-- An instant of the clock, in nanoseconds. -/
abbrev Time := Int

/-- The type `time.Duration`: a signed number of nanoseconds. -/
abbrev Duration := Int

/-- A user-supplied function value, identified by name. -/
abbrev Callback := Nat

/-- The value a 64-bit signed integer takes when the exact result is `x`. -/
def wrap64 (x : Int) : Int :=
  (x + 9223372036854775808) % 18446744073709551616 - 9223372036854775808

/-- The method `Time.Sub`: the difference of two instants, held at the largest or the
smallest `Duration` when it would pass it. -/
def Time.Sub (t u : Time) : Duration :=
  if t - u > 9223372036854775807 then 9223372036854775807
  else if t - u < -9223372036854775808 then -9223372036854775808
  else t - u

/-! ## sync.RWMutex -/

/-- A call on a `sync.RWMutex`. -/
inductive MutexCall where
  | Lock
  | Unlock
  | RLock
  | RUnlock
deriving DecidableEq

/-- The state of a `sync.RWMutex` as one goroutine sees it: free, held shared by a number
of `RLock`s (one more than `n`), or held exclusive. -/
inductive LockState where
  | free
  | shared (n : Nat)
  | exclusive
deriving DecidableEq

/-- The effect of one mutex call; `none` when the call does not return: `Unlock` or
`RUnlock` of a mutex that is not held in that mode is a fatal error of the runtime, and
`Lock` or `RLock` of a mutex that the caller already holds in a conflicting mode blocks
for ever. -/
def lockStep : LockState → MutexCall → Option LockState
  | .free, .Lock => some .exclusive
  | .free, .RLock => some (.shared 0)
  | .shared n, .RLock => some (.shared (n + 1))
  | .shared 0, .RUnlock => some .free
  | .shared (n + 1), .RUnlock => some (.shared n)
  | .exclusive, .Unlock => some .free
  | _, _ => none

/-! ## errors.go -/

/-- The two error values of `errors.go`. -/
inductive Err where
  | ErrKeyNotFound
  | ErrKeyNotFoundOrLoadable
deriving DecidableEq

/-! ## cacheitem.go -/

/-- The struct `Item` (the embedded `sync.RWMutex` appears in the trace only). -/
structure Item (K V : Type) where
  key : K
  value : V
  lifeTime : Duration
  createdAt : Time
  accessedAt : Time
  accessCount : Int
  aboutToExpire : Option Callback
deriving DecidableEq

/-- The constructor `NewItem`; `t` is the reading of `time.Now()`. -/
def NewItem {K V : Type} (key : K) (value : V) (lifeTime : Duration) (t : Time) : Item K V :=
  { key := key
    value := value
    createdAt := t
    accessedAt := t
    accessCount := 0
    aboutToExpire := none
    lifeTime := lifeTime }

/-- The field updates of `Item.KeepAlive`: `accessedAt = time.Now()`, `accessCount++` on
an `int64`. -/
def Item.KeepAlive {K V : Type} (item : Item K V) (now : Time) : Item K V :=
  { item with accessedAt := now, accessCount := wrap64 (item.accessCount + 1) }

/-- The accessor `Item.LifeTime`. -/
def Item.LifeTime {K V : Type} (item : Item K V) : Duration := item.lifeTime

/-- The accessor `Item.CreatedAt`. -/
def Item.CreatedAt {K V : Type} (item : Item K V) : Time := item.createdAt

/-- The accessor `Item.Key`. -/
def Item.Key {K V : Type} (item : Item K V) : K := item.key

/-- The accessor `Item.Value`. -/
def Item.Value {K V : Type} (item : Item K V) : V := item.value

/-! ## cachetable.go: data -/

/-- A `*time.Timer` made by `time.AfterFunc(d, f)`: its delay and whether it is still
due to fire. -/
structure Timer where
  d : Duration
  active : Bool
deriving DecidableEq

/-- The lines handed to `table.log`. -/
inductive LogLine (K : Type) where
  | expirationTriggered (interval : Duration) (name : String)
  | expirationInstalled (name : String)
  | adding (key : K) (lifeTime : Duration)
  | deleting (key : K) (createdAt : Time) (accessCount : Int) (name : String)
  | flushing (name : String)
deriving DecidableEq

/-- The calls an operation makes to its environment, and the two map mutations. -/
inductive Event (K V : Type) where
  | tableLock
  | tableUnlock
  | tableRLock
  | tableRUnlock
  | itemLock (key : K)
  | itemUnlock (key : K)
  | itemRLock (key : K)
  | itemRUnlock (key : K)
  | addedItem (cb : Callback) (item : Item K V)
  | aboutToDeleteItem (cb : Callback) (item : Item K V)
  | aboutToExpire (cb : Callback) (key : K)
  | loadData (key : K) (args : List V)
  | trans (cb : Callback) (key : K) (item : Item K V)
  | goExpirationCheck
  | timerStop
  | afterFunc (d : Duration)
  | println (sink : Nat) (line : LogLine K)
  | mapStore (key : K)
  | mapDelete (key : K)
deriving DecidableEq

/-- The struct `Table` (the embedded `sync.RWMutex` appears in the trace only). -/
structure Table (K V : Type) where
  name : String
  items : AList (fun _ : K => Item K V)
  cleanupTimer : Option Timer
  cleanupInterval : Duration
  logger : Option Nat
  loadData : Option (K → List V → Option (Item K V))
  addedItem : Option Callback
  aboutToDeleteItem : Option Callback

/-- A table together with the calls made so far (`trace`).  `seen` holds the same calls,
each with the map as it is at the moment of the call: what a callback that reads the
table finds when it runs. -/
structure World (K V : Type) where
  table : Table K V
  trace : List (Event K V)
  seen : List (Event K V × AList (fun _ : K => Item K V)) := []

section Operations

variable {K V : Type} [DecidableEq K]

/-- Record one call, together with the map as it is when the call is made. -/
def emit (e : Event K V) (w : World K V) : World K V :=
  { w with trace := w.trace ++ [e], seen := w.seen ++ [(e, w.table.items)] }

/-- Assign `table.items`. -/
def setItems (m : AList (fun _ : K => Item K V)) (w : World K V) : World K V :=
  { w with table := { w.table with items := m } }

/-- Assign `table.cleanupInterval`. -/
def setInterval (d : Duration) (w : World K V) : World K V :=
  { w with table := { w.table with cleanupInterval := d } }

/-- Assign `table.cleanupTimer`. -/
def setTimer (tm : Option Timer) (w : World K V) : World K V :=
  { w with table := { w.table with cleanupTimer := tm } }

/-- The guard `if table.cleanupTimer != nil { table.cleanupTimer.Stop() }`. -/
def stopTimer (w : World K V) : World K V :=
  match w.table.cleanupTimer with
  | some tm => emit .timerStop (setTimer (some { tm with active := false }) w)
  | none => w

/-- The method `Table.log`: prints only when a logger is installed. -/
def Table.log (line : LogLine K) (w : World K V) : World K V :=
  match w.table.logger with
  | none => w
  | some sink => emit (.println sink line) w

/-- The method `Table.Count`. -/
def Table.Count (w : World K V) : Nat × World K V :=
  let w := emit .tableRLock w
  let n := w.table.items.entries.length
  (n, emit .tableRUnlock w)

/-- The method `Table.Foreach`; `trans` names the visitor.  The deferred call is
`table.Unlock()`, on the lock that `table.RLock()` took. -/
def Table.Foreach (trans : Callback) (w : World K V) : Option Unit × World K V :=
  let w := emit .tableRLock w
  match lockStep .free .RLock with
  | none => (none, w)
  | some held =>
    let w := w.table.items.entries.foldl (fun w p => emit (.trans trans p.1 p.2) w) w
    let w := emit .tableUnlock w
    match lockStep held .Unlock with
    | none => (none, w)
    | some _ => (some (), w)

/-- The method `Table.SetDataLoader`. -/
def Table.SetDataLoader (f : Option (K → List V → Option (Item K V))) (w : World K V) :
    World K V :=
  let w := emit .tableLock w
  let w := { w with table := { w.table with loadData := f } }
  emit .tableUnlock w

/-- The method `Table.SetAddedItemCallback`. -/
def Table.SetAddedItemCallback (f : Option Callback) (w : World K V) : World K V :=
  let w := emit .tableLock w
  let w := { w with table := { w.table with addedItem := f } }
  emit .tableUnlock w

/-- The method `Table.SetAboutToDeleteItemCallback`. -/
def Table.SetAboutToDeleteItemCallback (f : Option Callback) (w : World K V) : World K V :=
  let w := emit .tableLock w
  let w := { w with table := { w.table with aboutToDeleteItem := f } }
  emit .tableUnlock w

/-- The method `Table.SetLogger`. -/
def Table.SetLogger (logger : Option Nat) (w : World K V) : World K V :=
  let w := emit .tableLock w
  let w := { w with table := { w.table with logger := logger } }
  emit .tableUnlock w

/-- The method `Table.deleteInternal`; entered with the table lock held.  The deferred
`item.RUnlock()` runs last. -/
def Table.deleteInternal (key : K) (w : World K V) :
    (Option (Item K V) × Option Err) × World K V :=
  match w.table.items.lookup key with
  | none => ((none, some Err.ErrKeyNotFound), w)
  | some item =>
    let aboutToDeleteItemCallback := w.table.aboutToDeleteItem
    let w := emit .tableUnlock w
    let w := match aboutToDeleteItemCallback with
      | some cb => emit (.aboutToDeleteItem cb item) w
      | none => w
    let w := emit (.itemRLock item.key) w
    let w := match item.aboutToExpire with
      | some cb => emit (.aboutToExpire cb key) w
      | none => w
    let w := emit .tableLock w
    let w := Table.log (.deleting key item.createdAt item.accessCount w.table.name) w
    let w := emit (.mapDelete key) (setItems (w.table.items.erase key) w)
    let w := emit (.itemRUnlock item.key) w
    ((some item, none), w)

/-- The method `Table.Delete`. -/
def Table.Delete (key : K) (w : World K V) : (Option (Item K V) × Option Err) × World K V :=
  let w := emit .tableLock w
  let r := Table.deleteInternal key w
  (r.1, emit .tableUnlock r.2)

/-- One iteration of the loop of `expirationCheck`, for the key `key`.  The first
component is the local `smallestDuration`, or `none` once the pass has ended in a fatal
error.  A key that is no longer in the map is not produced by `range`.  The reads of the
item are bracketed by `item.RLock()` and `item.Unlock()`. -/
def expirationCheckBody (now : Time) (acc : Option Duration × World K V) (key : K) :
    Option Duration × World K V :=
  match acc.1 with
  | none => acc
  | some smallestDuration =>
    match acc.2.table.items.lookup key with
    | none => acc
    | some item =>
      let w := emit (.itemRLock item.key) acc.2
      match lockStep .free .RLock with
      | none => (none, w)
      | some held =>
        let lifeTime := item.LifeTime
        let accessedAt := item.accessedAt
        let w := emit (.itemUnlock item.key) w
        match lockStep held .Unlock with
        | none => (none, w)
        | some _ =>
          if lifeTime = 0 then (some smallestDuration, w)
          else if Time.Sub now accessedAt ≥ lifeTime then
            (some smallestDuration, (Table.deleteInternal key w).2)
          else if smallestDuration = 0 ∨
              wrap64 (lifeTime - Time.Sub now accessedAt) < smallestDuration then
            (some (wrap64 (lifeTime - Time.Sub now accessedAt)), w)
          else (some smallestDuration, w)

/-- The method `Table.expirationCheck`: one sweep pass at the clock reading `now`.  When
the loop ends in a fatal error nothing after it runs, the deferred `table.Unlock()`
included. -/
def Table.expirationCheck (now : Time) (w : World K V) : Option Unit × World K V :=
  let w := emit .tableLock w
  let w := stopTimer w
  let w := if w.table.cleanupInterval > 0
    then Table.log (.expirationTriggered w.table.cleanupInterval w.table.name) w
    else Table.log (.expirationInstalled w.table.name) w
  let r := w.table.items.keys.foldl (expirationCheckBody now) (some 0, w)
  match r.1 with
  | none => (none, r.2)
  | some smallestDuration =>
    let w := setInterval smallestDuration r.2
    let w := if smallestDuration > 0
      then emit (.afterFunc smallestDuration) (setTimer (some ⟨smallestDuration, true⟩) w)
      else w
    (some (), emit .tableUnlock w)

/-- The method `Table.addInternal`; entered with the table lock held. -/
def Table.addInternal (item : Item K V) (w : World K V) : World K V :=
  let w := Table.log (.adding item.key item.lifeTime) w
  let w := emit (.mapStore item.key) (setItems (w.table.items.insert item.key item) w)
  let expDuration := w.table.cleanupInterval
  let addedItemCallback := w.table.addedItem
  let w := emit .tableUnlock w
  let w := match addedItemCallback with
    | some cb => emit (.addedItem cb item) w
    | none => w
  if item.lifeTime > 0 ∧ (expDuration = 0 ∨ item.lifeTime < expDuration)
  then emit .goExpirationCheck w
  else w

/-- The method `Table.Add`. -/
def Table.Add (key : K) (value : V) (lifeTime : Duration) (now : Time) (w : World K V) :
    Item K V × World K V :=
  let item := NewItem key value lifeTime now
  let w := emit .tableLock w
  let w := Table.addInternal item w
  (item, w)

/-- The method `Table.Exists`.  The deferred call is `table.Unlock()`, on the lock that
`table.RLock()` took. -/
def Table.Exists (key : K) (w : World K V) : Option Bool × World K V :=
  let w := emit .tableRLock w
  match lockStep .free .RLock with
  | none => (none, w)
  | some held =>
    let ok := (w.table.items.lookup key).isSome
    let w := emit .tableUnlock w
    match lockStep held .Unlock with
    | none => (none, w)
    | some _ => (some ok, w)

/-- The method `Table.NotFoundAdd`. -/
def Table.NotFoundAdd (key : K) (value : V) (lifeTime : Duration) (now : Time)
    (w : World K V) : Bool × World K V :=
  let w := emit .tableLock w
  match w.table.items.lookup key with
  | some _ => (false, emit .tableUnlock w)
  | none =>
    let item := NewItem key value lifeTime now
    (true, Table.addInternal item w)

/-- The statements of `Table.Value` that follow the lookup (from `if ok` to the end),
run on what the lookup found and on the loader it read.  On a hit `KeepAlive` updates the
item the map points to, under the item lock; on a miss the loader, if any, is asked, and
what it returns is stored with `Add` and returned. -/
def Table.valueAfterLookup (key : K) (args : List V) (now : Time)
    (found : Option (Item K V)) (loadDataCallback : Option (K → List V → Option (Item K V)))
    (w : World K V) : (Option (Item K V) × Option Err) × World K V :=
  match found with
  | some item =>
    let w := emit (.itemLock item.key) w
    let item := item.KeepAlive now
    let w := setItems (w.table.items.replace key item) w
    let w := emit (.itemUnlock item.key) w
    ((some item, none), w)
  | none =>
    match loadDataCallback with
    | some load =>
      let w := emit (.loadData key args) w
      match load key args with
      | some item =>
        let w := (Table.Add key item.value item.lifeTime now w).2
        ((some item, none), w)
      | none => ((none, some Err.ErrKeyNotFoundOrLoadable), w)
    | none => ((none, some Err.ErrKeyNotFound), w)

/-- The method `Table.Value`.  The lookup is bracketed by `table.RLock()` and
`table.Unlock()`. -/
def Table.Value (key : K) (args : List V) (now : Time) (w : World K V) :
    Option (Option (Item K V) × Option Err) × World K V :=
  let w := emit .tableRLock w
  match lockStep .free .RLock with
  | none => (none, w)
  | some held =>
    let found := w.table.items.lookup key
    let loadDataCallback := w.table.loadData
    let w := emit .tableUnlock w
    match lockStep held .Unlock with
    | none => (none, w)
    | some _ =>
      (some (Table.valueAfterLookup key args now found loadDataCallback w).1,
        (Table.valueAfterLookup key args now found loadDataCallback w).2)

/-- The method `Table.Flush`. -/
def Table.Flush (w : World K V) : World K V :=
  let w := emit .tableLock w
  let w := Table.log (.flushing w.table.name) w
  let w := setItems ∅ w
  let w := setInterval 0 w
  let w := stopTimer w
  emit .tableUnlock w

/-- Whether a scheduled sweep is still due to fire. -/
def sweepPending (t : Table K V) : Bool :=
  match t.cleanupTimer with
  | some tm => tm.active
  | none => false

end Operations

section Sequences

variable {K V : Type} [DecidableEq K]

/-- Successive calls of `NotFoundAdd` on one key, each with its own value, lifetime and
clock reading; the answers are collected in call order. -/
def notFoundAddAll (key : K) : List (V × Duration × Time) → World K V → List Bool × World K V
  | [], w => ([], w)
  | c :: cs, w =>
    ((Table.NotFoundAdd key c.1 c.2.1 c.2.2 w).1 ::
        (notFoundAddAll key cs (Table.NotFoundAdd key c.1 c.2.1 c.2.2 w).2).1,
      (notFoundAddAll key cs (Table.NotFoundAdd key c.1 c.2.1 c.2.2 w).2).2)

end Sequences

/-! ## cacheitem.go: the locked read accessors -/

section Accessors

variable {K V : Type}

/-- The method `Item.AccessedAt`: it takes the read lock and then calls
`item.AccessedAt()`, itself.  `fuel` bounds the depth of the nested calls; `none` says
that within this depth no call has returned. -/
def Item.AccessedAt (fuel : Nat) (item : Item K V) : Option Time :=
  match fuel with
  | 0 => none
  | n + 1 => Item.AccessedAt n item

/-- The method `Item.AccessCount`: the stored counter, read under the read lock. -/
def Item.AccessCount (item : Item K V) : Int := item.accessCount

end Accessors

/-! ## cachetable.go: MostAccessed -/

/-- The struct `ItemPair`. -/
structure ItemPair (K : Type) where
  Key : K
  AccessCount : Int
deriving DecidableEq

section Ranking

variable {K V : Type} [DecidableEq K]

/-- The method `ItemPairList.Len`. -/
def ItemPairList.Len (list : List (ItemPair K)) : Nat := list.length

/-- The method `ItemPairList.Less`; an index out of range has no answer. -/
def ItemPairList.Less (list : List (ItemPair K)) (i j : Nat) : Option Bool :=
  match list[i]?, list[j]? with
  | some a, some b => some (decide (a.AccessCount > b.AccessCount))
  | _, _ => none

/-- The method `ItemPairList.Swap`; an index out of range has no answer. -/
def ItemPairList.Swap (list : List (ItemPair K)) (i j : Nat) : Option (List (ItemPair K)) :=
  match list[i]?, list[j]? with
  | some a, some b => some ((list.set i b).set j a)
  | _, _ => none

/-- What the standard library promises of `sort.Sort` on an `ItemPairList`: the result
is a rearrangement of the argument in which no element is `Less` than one that stands
before it.  The order of elements that are not `Less` than each other is left open. -/
def SortsByLess (sort : List (ItemPair K) → List (ItemPair K)) : Prop :=
  ∀ l, (sort l).Perm l ∧
    ∀ i j, i < j → j < (sort l).length → ItemPairList.Less (sort l) j i = some false

/-- One sorting function that keeps this promise: insertion sort by falling count. -/
def sortByCount (l : List (ItemPair K)) : List (ItemPair K) :=
  l.insertionSort (fun a b => b.AccessCount ≤ a.AccessCount)

/-- The second loop of `MostAccessed`: `c` counts the pairs looked at, `r` is the
result so far. -/
def mostAccessedLoop (items : AList (fun _ : K => Item K V)) (count : Int) :
    List (ItemPair K) → Int → List (Item K V) → List (Item K V)
  | [], _, r => r
  | v :: vs, c, r =>
    if c ≥ count then r
    else
      match items.lookup v.Key with
      | some item => mostAccessedLoop items count vs (c + 1) (r ++ [item])
      | none => mostAccessedLoop items count vs (c + 1) r

/-- The method `Table.MostAccessed`; `sort` stands for `sort.Sort`. -/
def Table.MostAccessed (sort : List (ItemPair K) → List (ItemPair K)) (count : Int)
    (w : World K V) : List (Item K V) × World K V :=
  let w := emit .tableRLock w
  let p := w.table.items.entries.map (fun e => (⟨e.1, e.2.accessCount⟩ : ItemPair K))
  let p := sort p
  let r := mostAccessedLoop w.table.items count p 0 []
  (r, emit .tableRUnlock w)

end Ranking

/-! ## cache.go: the registry -/

/-- The package variables `cache` and `mutex`: the tables by name, and the calls made on
the mutex so far.  A `*Table` handed out by the registry is identified with the table
stored in the map. -/
structure Registry (K V : Type) where
  cache : AList (fun _ : String => Table K V)
  calls : List MutexCall

section RegistryOps

variable {K V : Type}

/-- Record one call on the registry mutex. -/
def Registry.call (c : MutexCall) (r : Registry K V) : Registry K V :=
  { r with calls := r.calls ++ [c] }

/-- The function `Cache`: look the name up under the read lock; on a miss take the write
lock, look again, and only then make and store a table with this name and an empty map. -/
def Cache (table : String) (r : Registry K V) : Table K V × Registry K V :=
  let r := r.call .RLock
  let found := r.cache.lookup table
  let r := r.call .RUnlock
  match found with
  | some t => (t, r)
  | none =>
    let r := r.call .Lock
    match r.cache.lookup table with
    | some t => (t, r.call .Unlock)
    | none =>
      let t : Table K V :=
        { name := table
          items := ∅
          cleanupTimer := none
          cleanupInterval := 0
          logger := none
          loadData := none
          addedItem := none
          aboutToDeleteItem := none }
      let r := { r with cache := r.cache.insert table t }
      (t, r.call .Unlock)

end RegistryOps

/-! ## The table lock as explicit state -/

/-- How far a sequence of calls gets: a user callback was called with the lock held, a
mutex call did not return, or the sequence ran to its end in the given lock state. -/
inductive Scan where
  | violated
  | stopped
  | done (s : LockState)
deriving DecidableEq

section LockScan

variable {K V : Type}

/-- The call on the table mutex that an event stands for, if any. -/
def Event.tableCall : Event K V → Option MutexCall
  | .tableLock => some .Lock
  | .tableUnlock => some .Unlock
  | .tableRLock => some .RLock
  | .tableRUnlock => some .RUnlock
  | _ => none

/-- The user-supplied callbacks that must run without the table lock: the added-item
callback, the about-to-delete callback, the expiry callback of an entry and the loader. -/
def Event.isCallback : Event K V → Bool
  | .addedItem _ _ => true
  | .aboutToDeleteItem _ _ => true
  | .aboutToExpire _ _ => true
  | .loadData _ _ => true
  | _ => false

/-- Run the calls of a trace on the table lock, from the lock state `s`. -/
def scan (s : LockState) : List (Event K V) → Scan
  | [] => .done s
  | e :: es =>
    match e.tableCall with
    | some c =>
      match lockStep s c with
      | some s2 => scan s2 es
      | none => .stopped
    | none =>
      if e.isCallback = true ∧ s ≠ .free then .violated else scan s es

/-- The calls an operation has added to the trace of `w`. -/
def callsSince (w w2 : World K V) : List (Event K V) :=
  w2.trace.drop w.trace.length

/-- The calls an operation has added since `w`, each with the map as it was at the
call. -/
def seenSince (w w2 : World K V) : List (Event K V × AList (fun _ : K => Item K V)) :=
  w2.seen.drop w.seen.length

end LockScan

/-! ## The calls of the delete and add paths, written out -/

section CallLists

variable {K V : Type} [DecidableEq K]

/-- The calls of `deleteInternal` on a key that is bound to `item`, in order: release
the table lock, the about-to-delete callback if set, the read lock of the item, the
expiry callback of the item if set, the table lock again, the log line if a logger is
set, the removal from the map, the deferred release of the item lock. -/
def deleteCalls (t : Table K V) (key : K) (item : Item K V) : List (Event K V) :=
  [Event.tableUnlock] ++
    (t.aboutToDeleteItem.map (fun cb => Event.aboutToDeleteItem cb item)).toList ++
    [Event.itemRLock item.key] ++
    (item.aboutToExpire.map (fun cb => Event.aboutToExpire cb key)).toList ++
    [Event.tableLock] ++
    (t.logger.map (fun sink =>
      Event.println sink (.deleting key item.createdAt item.accessCount t.name))).toList ++
    [Event.mapDelete key, Event.itemRUnlock item.key]

/-- The calls of `addInternal` for `item`, in order: the log line if a logger is set,
the store into the map, the release of the table lock, the added-item callback if set,
and the start of a sweep if the lifetime is positive and shorter than the interval read
at the store (or that interval is 0). -/
def addCalls (t : Table K V) (item : Item K V) : List (Event K V) :=
  (t.logger.map (fun sink => Event.println sink (.adding item.key item.lifeTime))).toList ++
    [Event.mapStore item.key, Event.tableUnlock] ++
    (t.addedItem.map (fun cb => Event.addedItem cb item)).toList ++
    (if item.lifeTime > 0 ∧ (t.cleanupInterval = 0 ∨ item.lifeTime < t.cleanupInterval)
      then [Event.goExpirationCheck] else [])

end CallLists

/-! ## Sample data -/

/-- A table named `t` with no entries, no timer and no callbacks. -/
def emptyTable : Table Nat Nat :=
  { name := "t"
    items := ∅
    cleanupTimer := none
    cleanupInterval := 0
    logger := none
    loadData := none
    addedItem := none
    aboutToDeleteItem := none }

/-- A run that starts on the empty table. -/
def emptyWorld : World Nat Nat := { table := emptyTable, trace := [] }

/-- Three entries: key 1 expires 50 after its access at 0, key 2 never expires, key 3
expires 200 after its access at 0. -/
def sampleItems : AList (fun _ : Nat => Item Nat Nat) :=
  AList.insert 1 (NewItem 1 10 50 0)
    (AList.insert 2 (NewItem 2 20 0 0) (AList.insert 3 (NewItem 3 30 200 0) ∅))

/-- A loader that knows key 1 only.  The item it hands out was made by
`NewItem(9, 11, 30)` at time 5 and kept alive once at time 6, so it carries a key, a
creation time and an access count of its own. -/
def sampleLoader : Nat → List Nat → Option (Item Nat Nat) :=
  fun key _ => if key = 1 then some ((NewItem 9 11 30 5).KeepAlive 6) else none

/-- A run that starts on the empty table with `sampleLoader` installed. -/
def loaderWorld : World Nat Nat :=
  { table :=
      { name := "t"
        items := ∅
        cleanupTimer := none
        cleanupInterval := 0
        logger := none
        loadData := some sampleLoader
        addedItem := none
        aboutToDeleteItem := none }
    trace := [] }

/-- A run on three entries `a`, `b`, `c` under the keys 1, 2, 3, read 5, 1 and 3 times. -/
def rankWorld : World Nat Nat :=
  { table :=
      { name := "t"
        items :=
          AList.insert 1 { NewItem 1 10 0 0 with accessCount := 5 }
            (AList.insert 2 { NewItem 2 20 0 0 with accessCount := 1 }
              (AList.insert 3 { NewItem 3 30 0 0 with accessCount := 3 } ∅))
        cleanupTimer := none
        cleanupInterval := 0
        logger := none
        loadData := none
        addedItem := none
        aboutToDeleteItem := none }
    trace := [] }

/-- A registry with no tables. -/
def emptyRegistry : Registry Nat Nat := ⟨∅, []⟩

/-- A run on one entry under key 1 that has the expiry callback 9 and expires 50 after
its access at 0, in a table with the added-item callback 7, the about-to-delete callback 8
and a sweep due in 80. -/
def callbackWorld : World Nat Nat :=
  { table :=
      { name := "t"
        items := AList.insert 1 { NewItem 1 10 50 0 with aboutToExpire := some 9 } ∅
        cleanupTimer := some ⟨80, true⟩
        cleanupInterval := 80
        logger := none
        loadData := none
        addedItem := some 7
        aboutToDeleteItem := some 8 }
    trace := [] }

/-- A run that starts on the three sample entries, with a sweep scheduled. -/
def sampleWorld : World Nat Nat :=
  { table :=
      { name := "t"
        items := sampleItems
        cleanupTimer := some ⟨50, true⟩
        cleanupInterval := 50
        logger := none
        loadData := none
        addedItem := some 7
        aboutToDeleteItem := some 8 }
    trace := [] }

end Cache

/-! ## Lemmas on association lists -/

namespace Cache

section MapLemmas

variable {K : Type} [DecidableEq K] {β : Type}

/-- Erasing a key that is not bound leaves the map as it is. -/
theorem alist_erase_of_lookup_none {k : K} {s : AList (fun _ : K => β)}
    (h : s.lookup k = none) : s.erase k = s := by
  apply AList.ext
  have hk : k ∉ s.entries.keys := by
    have := AList.lookup_eq_none.mp h
    simpa [AList.mem_keys, AList.keys] using this
  simpa [AList.erase] using List.kerase_of_not_mem_keys hk

/-- Lookup after erasing, in one equation. -/
theorem alist_lookup_erase (k k' : K) (s : AList (fun _ : K => β)) :
    (s.erase k).lookup k' = if k' = k then none else s.lookup k' := by
  by_cases h : k' = k
  · subst h; simp
  · simp [h, AList.lookup_erase_ne h]

/-- Lookup after inserting, in one equation. -/
theorem alist_lookup_insert (k k' : K) (b : β) (s : AList (fun _ : K => β)) :
    (s.insert k b).lookup k' = if k' = k then some b else s.lookup k' := by
  by_cases h : k' = k
  · subst h; simp
  · simp [h, AList.lookup_insert_ne h]

/-- Erasing a bound key of a list with unique keys shortens it by one. -/
theorem length_kerase_of_mem {k : K} {l : List (Sigma fun _ : K => β)}
    (h : k ∈ l.keys) : (l.kerase k).length + 1 = l.length := by
  obtain ⟨b, l₁, l₂, _, hl, hk⟩ := List.exists_of_kerase h
  rw [hk, hl]
  simp
  omega

/-- The number of entries after erasing a bound key. -/
theorem alist_length_erase {k : K} {s : AList (fun _ : K => β)} {b : β}
    (h : s.lookup k = some b) : (s.erase k).entries.length + 1 = s.entries.length := by
  have hk : k ∈ s.entries.keys := by
    have : (s.lookup k).isSome := by simp [h]
    have := AList.lookup_isSome.mp this
    simpa [AList.mem_keys, AList.keys] using this
  simpa [AList.erase] using length_kerase_of_mem hk

/-- The number of entries after inserting. -/
theorem alist_length_insert (k : K) (b : β) (s : AList (fun _ : K => β)) :
    (s.insert k b).entries.length =
      if (s.lookup k).isSome then s.entries.length else s.entries.length + 1 := by
  rw [AList.insert_entries]
  cases h : s.lookup k with
  | none =>
    have := alist_erase_of_lookup_none h
    have he : s.entries.kerase k = s.entries := by
      simpa [AList.erase] using congrArg AList.entries this
    simp [he]
  | some b' =>
    have := alist_length_erase h
    simp only [AList.erase] at this
    simp
    omega

/-- Lookup in a raw list after replacing the value of a key. -/
theorem dlookup_kreplace (k k' : K) (b : β) (l : List (Sigma fun _ : K => β)) :
    (l.kreplace k b).dlookup k' =
      if k' = k then (l.dlookup k).map (fun _ => b) else l.dlookup k' := by
  induction l with
  | nil => simp [List.kreplace]
  | cons x l ih =>
    obtain ⟨a, c⟩ := x
    by_cases hak : k = a
    · subst hak
      have hr : List.kreplace k b (⟨k, c⟩ :: l) = ⟨k, b⟩ :: l := by
        simp [List.kreplace, List.lookmap_cons_some]
      rw [hr]
      by_cases h : k' = k
      · subst h; simp
      · simp [h, List.dlookup_cons_ne]
    · have hr : List.kreplace k b (⟨a, c⟩ :: l) = ⟨a, c⟩ :: List.kreplace k b l := by
        simp [List.kreplace, List.lookmap_cons_none, hak]
      rw [hr]
      by_cases h : k' = a
      · subst h
        have : k' ≠ k := fun e => hak e.symm
        simp [this]
      · rw [List.dlookup_cons_ne _ _ h, ih]
        have hc : List.dlookup k (⟨a, c⟩ :: l) = List.dlookup k l :=
          List.dlookup_cons_ne l ⟨a, c⟩ hak
        have hc2 : List.dlookup k' (⟨a, c⟩ :: l) = List.dlookup k' l :=
          List.dlookup_cons_ne l ⟨a, c⟩ h
        rw [hc, hc2]

/-- Lookup after replacing the value of a key. -/
theorem alist_lookup_replace (k k' : K) (b : β) (s : AList (fun _ : K => β)) :
    (s.replace k b).lookup k' =
      if k' = k then (s.lookup k).map (fun _ => b) else s.lookup k' := by
  simpa [AList.replace, AList.lookup] using dlookup_kreplace k k' b s.entries

/-- A key is listed exactly when it is bound. -/
theorem alist_mem_keys_iff (k : K) (s : AList (fun _ : K => β)) :
    k ∈ s.keys ↔ (s.lookup k).isSome := by
  rw [AList.lookup_isSome, AList.mem_keys]

end MapLemmas

end Cache

/-! ## Lemmas on the operations -/

namespace Cache

section OperationLemmas

variable {K V : Type} [DecidableEq K]

@[simp] theorem emit_table (e : Event K V) (w : World K V) : (emit e w).table = w.table := rfl

@[simp] theorem emit_trace (e : Event K V) (w : World K V) :
    (emit e w).trace = w.trace ++ [e] := rfl

@[simp] theorem log_table (line : LogLine K) (w : World K V) :
    (Table.log line w).table = w.table := by
  unfold Table.log
  split <;> rfl

/-- Stopping the timer touches only the timer field. -/
theorem stopTimer_table (w : World K V) :
    (stopTimer w).table =
      { w.table with cleanupTimer := w.table.cleanupTimer.map (fun tm => { tm with active := false }) } := by
  unfold stopTimer
  cases h : w.table.cleanupTimer with
  | none =>
    cases w with
    | mk t tr sn =>
      cases t
      simp_all
  | some tm => simp [setTimer, h]

@[simp] theorem stopTimer_items (w : World K V) : (stopTimer w).table.items = w.table.items := by
  rw [stopTimer_table]

/-- After the timer is stopped no sweep is due. -/
theorem sweepPending_stopTimer (w : World K V) : sweepPending (stopTimer w).table = false := by
  rw [stopTimer_table]
  unfold sweepPending
  cases w.table.cleanupTimer <;> simp

/-- The table that `deleteInternal` leaves: the key is erased, nothing else changes. -/
theorem deleteInternal_table (key : K) (w : World K V) :
    (Table.deleteInternal key w).2.table =
      { w.table with items := w.table.items.erase key } := by
  unfold Table.deleteInternal
  cases h : w.table.items.lookup key with
  | none =>
    simp only [alist_erase_of_lookup_none h]
  | some item =>
    cases h1 : item.aboutToExpire <;> cases h2 : w.table.aboutToDeleteItem <;>
      simp [setItems, h1, h2]

/-- The results of `deleteInternal`. -/
theorem deleteInternal_ret (key : K) (w : World K V) :
    (Table.deleteInternal key w).1 =
      match w.table.items.lookup key with
      | none => (none, some Err.ErrKeyNotFound)
      | some item => (some item, none) := by
  unfold Table.deleteInternal
  cases h : w.table.items.lookup key <;> simp

end OperationLemmas

end Cache

/-! ## The table after an insertion -/

namespace Cache

section AddLemmas

variable {K V : Type} [DecidableEq K]

/-- The table that `addInternal` leaves. -/
theorem addInternal_table (item : Item K V) (w : World K V) :
    (Table.addInternal item w).table =
      { w.table with items := w.table.items.insert item.key item } := by
  unfold Table.addInternal
  cases h : w.table.addedItem <;> simp only [] <;> split <;> simp [setItems, h]

/-- The table that `Add` leaves. -/
theorem Add_table (key : K) (value : V) (lifeTime : Duration) (now : Time) (w : World K V) :
    (Table.Add key value lifeTime now w).2.table =
      { w.table with items := w.table.items.insert key (NewItem key value lifeTime now) } := by
  unfold Table.Add
  simp only [addInternal_table]
  simp [NewItem]

/-- The entry `Add` returns. -/
theorem Add_ret (key : K) (value : V) (lifeTime : Duration) (now : Time) (w : World K V) :
    (Table.Add key value lifeTime now w).1 = NewItem key value lifeTime now := rfl

end AddLemmas

end Cache

/-! ## Add, Delete, NotFoundAdd, Flush -/

namespace Cache

section TableTheorems

variable {K V : Type} [DecidableEq K]

/-- The answer of `Count`. -/
theorem Count_ret (w : World K V) : (Table.Count w).1 = w.table.items.entries.length := rfl

/-- The table that `Delete` leaves. -/
theorem Delete_table (key : K) (w : World K V) :
    (Table.Delete key w).2.table = { w.table with items := w.table.items.erase key } := by
  unfold Table.Delete
  simp [deleteInternal_table]

/-- The results of `Delete`. -/
theorem Delete_ret (key : K) (w : World K V) :
    (Table.Delete key w).1 =
      match w.table.items.lookup key with
      | none => (none, some Err.ErrKeyNotFound)
      | some item => (some item, none) := by
  unfold Table.Delete
  simp [deleteInternal_ret]

/-- A call of `NotFoundAdd` on a key that is present, in full. -/
theorem NotFoundAdd_of_lookup_some (key : K) (value : V) (lifeTime : Duration) (now : Time)
    (w : World K V) (item : Item K V) (h : w.table.items.lookup key = some item) :
    Table.NotFoundAdd key value lifeTime now w =
      (false, emit .tableUnlock (emit .tableLock w)) := by
  unfold Table.NotFoundAdd
  simp [h]

/-- A call of `NotFoundAdd` on a key that is absent, in full. -/
theorem NotFoundAdd_of_lookup_none (key : K) (value : V) (lifeTime : Duration) (now : Time)
    (w : World K V) (h : w.table.items.lookup key = none) :
    Table.NotFoundAdd key value lifeTime now w =
      (true, Table.addInternal (NewItem key value lifeTime now) (emit .tableLock w)) := by
  unfold Table.NotFoundAdd
  simp [h]

/-- Once the key is present every further `NotFoundAdd` on it answers false. -/
theorem notFoundAddAll_of_present (key : K) (cs : List (V × Duration × Time)) (w : World K V)
    (h : (w.table.items.lookup key).isSome = true) :
    (notFoundAddAll key cs w).1 = List.replicate cs.length false := by
  induction cs generalizing w with
  | nil => rfl
  | cons c cs ih =>
    obtain ⟨item, hi⟩ := Option.isSome_iff_exists.mp h
    have hn := NotFoundAdd_of_lookup_some key c.1 c.2.1 c.2.2 w item hi
    simp only [notFoundAddAll, hn, List.length_cons, List.replicate_succ]
    rw [ih]
    simpa using h

/-- The table that `Flush` leaves. -/
theorem Flush_table (w : World K V) :
    (Table.Flush w).table =
      { w.table with
        items := ∅
        cleanupInterval := 0
        cleanupTimer := w.table.cleanupTimer.map (fun tm => { tm with active := false }) } := by
  unfold Table.Flush
  simp [stopTimer_table, setInterval, setItems]

/-- C6: `Add` always returns an entry, with the given key, value and lifetime, access
count 0 and `accessedAt` equal to `createdAt`; afterwards the key is bound to exactly this
entry, every other key to the entry it had, and `Count` is one more if the key was absent
and the same if it was present. -/
theorem Add_inserts_fresh_entry (w : World K V) (k : K) (v : V) (l : Duration) (now : Time) :
    (Table.Add k v l now w).1.key = k ∧
    (Table.Add k v l now w).1.value = v ∧
    (Table.Add k v l now w).1.lifeTime = l ∧
    (Table.Add k v l now w).1.accessCount = 0 ∧
    (Table.Add k v l now w).1.accessedAt = (Table.Add k v l now w).1.createdAt ∧
    (Table.Add k v l now w).2.table.items.lookup k = some (Table.Add k v l now w).1 ∧
    (∀ k2, k2 ≠ k →
      (Table.Add k v l now w).2.table.items.lookup k2 = w.table.items.lookup k2) ∧
    (Table.Count (Table.Add k v l now w).2).1 =
      if (w.table.items.lookup k).isSome then (Table.Count w).1 else (Table.Count w).1 + 1 := by
  refine ⟨rfl, rfl, rfl, rfl, rfl, ?_, ?_, ?_⟩
  · rw [Add_table, Add_ret]; simp
  · intro k2 hk
    rw [Add_table]
    simp [alist_lookup_insert, hk]
  · rw [Count_ret, Count_ret, Add_table]
    exact alist_length_insert k _ w.table.items

/-- C6, on the sample table: adding key 2 again replaces its entry and keeps the count at
3, key 3 is as before; adding the new key 4 takes the count to 4. -/
theorem Add_inserts_fresh_entry_witness :
    (Table.Add 2 21 9 70 sampleWorld).2.table.items.lookup 2 = some (NewItem 2 21 9 70) ∧
    (Table.Add 2 21 9 70 sampleWorld).2.table.items.lookup 3 = some (NewItem 3 30 200 0) ∧
    (Table.Count (Table.Add 2 21 9 70 sampleWorld).2).1 = 3 ∧
    (Table.Count (Table.Add 4 41 0 70 sampleWorld).2).1 = 4 :=
  ⟨(Add_inserts_fresh_entry sampleWorld 2 21 9 70).2.2.2.2.2.1,
    ((Add_inserts_fresh_entry sampleWorld 2 21 9 70).2.2.2.2.2.2.1 3 (by decide)).trans
      (by decide),
    (Add_inserts_fresh_entry sampleWorld 2 21 9 70).2.2.2.2.2.2.2.trans (by decide),
    (Add_inserts_fresh_entry sampleWorld 4 41 0 70).2.2.2.2.2.2.2.trans (by decide)⟩

/-- C7: on a key that is present `Delete` returns the entry stored under it and no
error; afterwards the key is absent, every other key has the entry it had, and `Count` is
exactly one less. -/
theorem Delete_hit_removes (w : World K V) (k : K) (item : Item K V)
    (h : w.table.items.lookup k = some item) :
    (Table.Delete k w).1 = (some item, none) ∧
    (Table.Delete k w).2.table.items.lookup k = none ∧
    (∀ k2, k2 ≠ k →
      (Table.Delete k w).2.table.items.lookup k2 = w.table.items.lookup k2) ∧
    (Table.Count (Table.Delete k w).2).1 + 1 = (Table.Count w).1 := by
  refine ⟨?_, ?_, ?_, ?_⟩
  · rw [Delete_ret, h]
  · rw [Delete_table]; simp
  · intro k2 hk
    rw [Delete_table]
    simp [alist_lookup_erase, hk]
  · rw [Count_ret, Count_ret, Delete_table]
    exact alist_length_erase h

/-- C7, on the sample table: deleting key 2 returns its entry, leaves key 3 alone and
takes the count from 3 to 2. -/
theorem Delete_hit_removes_witness :
    (Table.Delete 2 sampleWorld).1 = (some (NewItem 2 20 0 0), none) ∧
    (Table.Delete 2 sampleWorld).2.table.items.lookup 2 = none ∧
    (Table.Delete 2 sampleWorld).2.table.items.lookup 3 = some (NewItem 3 30 200 0) ∧
    (Table.Count (Table.Delete 2 sampleWorld).2).1 + 1 = 3 :=
  have h := Delete_hit_removes sampleWorld 2 (NewItem 2 20 0 0) (by decide)
  ⟨h.1, h.2.1, (h.2.2.1 3 (by decide)).trans (by decide), h.2.2.2.trans (by decide)⟩

/-- C8: on a key that is absent `Delete` returns no entry and `ErrKeyNotFound`, makes no
call but taking and releasing the table lock (so neither the about-to-delete callback nor
an expiry callback runs), and leaves the entries and `cleanupInterval` as they were. -/
theorem Delete_miss_fails (w : World K V) (k : K) (h : w.table.items.lookup k = none) :
    (Table.Delete k w).1 = (none, some Err.ErrKeyNotFound) ∧
    (Table.Delete k w).2.trace = w.trace ++ [Event.tableLock, Event.tableUnlock] ∧
    (∀ cb item, Event.aboutToDeleteItem cb item ∉ (Table.Delete k w).2.trace.drop w.trace.length) ∧
    (∀ cb key, Event.aboutToExpire cb key ∉ (Table.Delete k w).2.trace.drop w.trace.length) ∧
    (Table.Delete k w).2.table.items = w.table.items ∧
    (Table.Delete k w).2.table.cleanupInterval = w.table.cleanupInterval ∧
    (Table.Delete k w).2.table = w.table := by
  have ht : (Table.Delete k w).2.trace = w.trace ++ [Event.tableLock, Event.tableUnlock] := by
    unfold Table.Delete Table.deleteInternal
    simp [h]
  have htab : (Table.Delete k w).2.table = w.table := by
    rw [Delete_table, alist_erase_of_lookup_none h]
  refine ⟨?_, ht, ?_, ?_, ?_, ?_, htab⟩
  · rw [Delete_ret, h]
  · intro cb item
    rw [ht]; simp
  · intro cb key
    rw [ht]; simp
  · rw [htab]
  · rw [htab]

/-- C8, on the sample table, which has an about-to-delete callback installed: deleting
the absent key 5 fails with `ErrKeyNotFound` and calls nothing but the lock. -/
theorem Delete_miss_fails_witness :
    (Table.Delete 5 sampleWorld).1 = (none, some Err.ErrKeyNotFound) ∧
    (Table.Delete 5 sampleWorld).2.trace = [Event.tableLock, Event.tableUnlock] :=
  have h := Delete_miss_fails sampleWorld 5 (by decide)
  ⟨h.1, h.2.1⟩

/-- C9: `NotFoundAdd` answers true exactly when the key was absent; when it answers true
the key is afterwards bound to a new entry with the given value and lifetime and `Count`
is one more; when it answers false the table is unchanged.  Of successive calls on one key
that is absent at first, the first answers true and all the others false. -/
theorem NotFoundAdd_inserts_once (w : World K V) (k : K) (v : V) (l : Duration) (now : Time) :
    ((Table.NotFoundAdd k v l now w).1 = true ↔ w.table.items.lookup k = none) ∧
    ((Table.NotFoundAdd k v l now w).1 = true →
      (Table.NotFoundAdd k v l now w).2.table.items.lookup k = some (NewItem k v l now) ∧
      (NewItem k v l now : Item K V).value = v ∧ (NewItem k v l now : Item K V).lifeTime = l ∧
      (Table.Count (Table.NotFoundAdd k v l now w).2).1 = (Table.Count w).1 + 1) ∧
    ((Table.NotFoundAdd k v l now w).1 = false →
      (Table.NotFoundAdd k v l now w).2.table = w.table) ∧
    (∀ (c : V × Duration × Time) (cs : List (V × Duration × Time)),
      w.table.items.lookup k = none →
      (notFoundAddAll k (c :: cs) w).1 = true :: List.replicate cs.length false) := by
  cases h : w.table.items.lookup k with
  | some item =>
    rw [NotFoundAdd_of_lookup_some k v l now w item h]
    simp
  | none =>
    refine ⟨?_, ?_, ?_, ?_⟩
    · rw [NotFoundAdd_of_lookup_none k v l now w h]
      simp
    · intro _
      rw [NotFoundAdd_of_lookup_none k v l now w h]
      refine ⟨?_, rfl, rfl, ?_⟩
      · rw [addInternal_table]; simp [NewItem]
      · rw [Count_ret, Count_ret, addInternal_table]
        have := alist_length_insert k (NewItem k v l now) w.table.items
        simpa [h, NewItem] using this
    · rw [NotFoundAdd_of_lookup_none k v l now w h]
      simp
    · intro c cs _
      have hn := NotFoundAdd_of_lookup_none k c.1 c.2.1 c.2.2 w h
      simp only [notFoundAddAll, hn]
      rw [notFoundAddAll_of_present]
      rw [addInternal_table]
      simp [NewItem]

/-- C9, on the empty table: three successive `NotFoundAdd 1` answer true, false, false,
and the entry of the first call is the one that stays. -/
theorem NotFoundAdd_inserts_once_witness :
    (notFoundAddAll 1 [(5, 0, 0), (6, 0, 1), (7, 0, 2)] emptyWorld).1 = [true, false, false] ∧
    (Table.NotFoundAdd 1 5 0 0 emptyWorld).1 = true ∧
    (Table.NotFoundAdd 1 6 0 1 (Table.NotFoundAdd 1 5 0 0 emptyWorld).2).2.table =
      (Table.NotFoundAdd 1 5 0 0 emptyWorld).2.table :=
  ⟨(NotFoundAdd_inserts_once emptyWorld 1 5 0 0).2.2.2 (5, 0, 0) [(6, 0, 1), (7, 0, 2)]
      (by decide),
    (NotFoundAdd_inserts_once emptyWorld 1 5 0 0).1.mpr (by decide),
    (NotFoundAdd_inserts_once (Table.NotFoundAdd 1 5 0 0 emptyWorld).2 1 6 0 1).2.2.1
      (by decide)⟩

end TableTheorems

end Cache

/-! ## The read accessors and the registry -/

namespace Cache

section AccessorsAndRegistry

variable {K V : Type} [DecidableEq K]

/-- C15: whatever depth of calls is allowed, `AccessedAt` has not returned within it:
every call takes the read lock and calls `AccessedAt` again, so the stored `accessedAt`
is never handed back.  `AccessCount` does return the stored counter. -/
theorem AccessedAt_never_returns (fuel : Nat) (item : Item K V) :
    Item.AccessedAt fuel item = none ∧ Item.AccessCount item = item.accessCount := by
  refine ⟨?_, rfl⟩
  induction fuel with
  | zero => rfl
  | succ n ih => simpa [Item.AccessedAt] using ih

/-- A call of `Cache` on a name that is bound, in full. -/
theorem Cache_of_lookup_some (name : String) (r : Registry K V) (t : Table K V)
    (h : r.cache.lookup name = some t) :
    Cache name r = (t, (r.call .RLock).call .RUnlock) := by
  unfold Cache
  simp [Registry.call, h]

/-- The table `Cache` makes for a name that is not bound. -/
theorem Cache_of_lookup_none (name : String) (r : Registry K V)
    (h : r.cache.lookup name = none) :
    (Cache name r).1 =
      { name := name, items := ∅, cleanupTimer := none, cleanupInterval := 0, logger := none,
        loadData := none, addedItem := none, aboutToDeleteItem := none } ∧
    (Cache name r).2.cache = r.cache.insert name (Cache name r).1 := by
  unfold Cache
  simp [Registry.call, h]

/-- C14: `Cache` always returns a table.  If the name is bound it returns the table the
name is bound to and leaves the registry as it is; otherwise it returns a new table with
this name and no entries, binds the name to it and leaves every other name as it was.
A second call returns the table of the first, and no binding is ever removed. -/
theorem Cache_gets_or_creates (r : Registry K V) (name : String) :
    (∀ t, r.cache.lookup name = some t →
      (Cache name r).1 = t ∧ (Cache name r).2.cache = r.cache) ∧
    (r.cache.lookup name = none →
      (Cache name r).1.name = name ∧
      (Cache name r).1.items.entries.length = 0 ∧
      (Cache name r).2.cache.lookup name = some (Cache name r).1 ∧
      ∀ n, n ≠ name → (Cache name r).2.cache.lookup n = r.cache.lookup n) ∧
    (Cache name (Cache name r).2).1 = (Cache name r).1 ∧
    (∀ n t, r.cache.lookup n = some t → (Cache name r).2.cache.lookup n = some t) := by
  cases h : r.cache.lookup name with
  | some t =>
    have hc := Cache_of_lookup_some name r t h
    refine ⟨?_, ?_, ?_, ?_⟩
    · intro t2 ht2
      cases ht2
      rw [hc]
      exact ⟨rfl, rfl⟩
    · intro hn; cases hn
    · rw [hc]
      have h2 : ((r.call .RLock).call .RUnlock).cache.lookup name = some t := h
      rw [Cache_of_lookup_some name _ t h2]
    · intro n t2 hn
      rw [hc]
      exact hn
  | none =>
    obtain ⟨h1, h2⟩ := Cache_of_lookup_none name r h
    have hl : (Cache name r).2.cache.lookup name = some (Cache name r).1 := by
      rw [h2]; simp
    refine ⟨?_, ?_, ?_, ?_⟩
    · intro t ht; cases ht
    · intro _
      refine ⟨?_, ?_, hl, ?_⟩
      · rw [h1]
      · rw [h1]; rfl
      · intro n hn
        rw [h2]
        exact AList.lookup_insert_ne hn
    · rw [Cache_of_lookup_some name _ _ hl]
    · intro n t hn
      have hne : n ≠ name := by
        intro e
        subst e
        rw [h] at hn
        cases hn
      rw [h2, AList.lookup_insert_ne hne]
      exact hn

/-- C14, on the registry with no tables: the first `Cache` makes a table named `a`
with no entries and binds the name to it; the second call returns that table. -/
theorem Cache_gets_or_creates_witness :
    (Cache "a" emptyRegistry).1.name = "a" ∧
    (Cache "a" emptyRegistry).1.items.entries.length = 0 ∧
    (Cache "a" emptyRegistry).2.cache.lookup "a" = some (Cache "a" emptyRegistry).1 ∧
    (Cache "a" (Cache "a" emptyRegistry).2).1 = (Cache "a" emptyRegistry).1 :=
  have h := (Cache_gets_or_creates emptyRegistry "a").2.1 rfl
  ⟨h.1, h.2.1, h.2.2.1, (Cache_gets_or_creates emptyRegistry "a").2.2.1⟩

end AccessorsAndRegistry

end Cache

/-! ## Traces -/

namespace Cache

section TraceLemmas

variable {K V : Type} [DecidableEq K]

/-- The calls since `w` of a run whose trace extends that of `w`. -/
theorem callsSince_of_trace (w w2 : World K V) (es : List (Event K V))
    (h : w2.trace = w.trace ++ es) : callsSince w w2 = es := by
  unfold callsSince
  rw [h]
  simp

/-- The trace after `Table.log`. -/
theorem log_trace (line : LogLine K) (w : World K V) :
    (Table.log line w).trace =
      w.trace ++ (w.table.logger.map (fun sink => Event.println sink line)).toList := by
  unfold Table.log
  cases h : w.table.logger <;> simp

/-- The trace after the timer guard. -/
theorem stopTimer_trace (w : World K V) :
    (stopTimer w).trace =
      w.trace ++ (w.table.cleanupTimer.map (fun _ => (Event.timerStop : Event K V))).toList := by
  unfold stopTimer
  cases h : w.table.cleanupTimer <;> simp [setTimer]

/-- The trace after `deleteInternal` on a key that is bound. -/
theorem deleteInternal_trace (key : K) (w : World K V) (item : Item K V)
    (h : w.table.items.lookup key = some item) :
    (Table.deleteInternal key w).2.trace = w.trace ++ deleteCalls w.table key item := by
  unfold Table.deleteInternal deleteCalls
  cases h1 : item.aboutToExpire <;> cases h2 : w.table.aboutToDeleteItem <;>
    cases h3 : w.table.logger <;> simp [h, h1, h2, h3, setItems, Table.log]

/-- The trace after `deleteInternal` on a key that is not bound. -/
theorem deleteInternal_trace_miss (key : K) (w : World K V)
    (h : w.table.items.lookup key = none) :
    (Table.deleteInternal key w).2.trace = w.trace := by
  unfold Table.deleteInternal
  simp [h]

/-- The trace after `addInternal`. -/
theorem addInternal_trace (item : Item K V) (w : World K V) :
    (Table.addInternal item w).trace = w.trace ++ addCalls w.table item := by
  unfold Table.addInternal addCalls
  cases h1 : w.table.addedItem <;> cases h3 : w.table.logger <;>
    simp only [] <;> split <;> simp_all [setItems, Table.log]

end TraceLemmas

end Cache

/-! ## Callbacks of the delete and add paths -/

namespace Cache

section CallbackTheorems

variable {K V : Type} [DecidableEq K]

/-- The trace after `Delete` on a key that is bound. -/
theorem Delete_trace (key : K) (w : World K V) (item : Item K V)
    (h : w.table.items.lookup key = some item) :
    (Table.Delete key w).2.trace =
      w.trace ++ ([Event.tableLock] ++ deleteCalls w.table key item ++ [Event.tableUnlock]) := by
  unfold Table.Delete
  have hl : (emit Event.tableLock w).table.items.lookup key = some item := by simpa using h
  simp only [emit_trace, deleteInternal_trace key _ item hl, emit_table]
  simp

/-- The trace after `Add`. -/
theorem Add_trace (key : K) (value : V) (lifeTime : Duration) (now : Time) (w : World K V) :
    (Table.Add key value lifeTime now w).2.trace =
      w.trace ++ ([Event.tableLock] ++ addCalls w.table (NewItem key value lifeTime now)) := by
  unfold Table.Add
  simp [addInternal_trace]

/-- C19: the calls of `Add` are the lock, the log line if a logger is set, the store,
the unlock, the added-item callback if set, and then the start of a sweep exactly when
the lifetime is positive and the interval read at the store is 0 or larger than the
lifetime; a lifetime of 0 starts none.  A `NotFoundAdd` that inserts makes the same
calls. -/
theorem Add_triggers_sweep_iff (w : World K V) (k : K) (v : V) (l : Duration) (now : Time) :
    callsSince w (Table.Add k v l now w).2 =
      [Event.tableLock] ++
        (w.table.logger.map (fun sink => Event.println sink (.adding k l))).toList ++
        [Event.mapStore k, Event.tableUnlock] ++
        (w.table.addedItem.map (fun cb => Event.addedItem cb (NewItem k v l now))).toList ++
        (if l > 0 ∧ (w.table.cleanupInterval = 0 ∨ l < w.table.cleanupInterval)
          then [Event.goExpirationCheck] else []) ∧
    (Event.goExpirationCheck ∈ callsSince w (Table.Add k v l now w).2 ↔
      l > 0 ∧ (w.table.cleanupInterval = 0 ∨ l < w.table.cleanupInterval)) ∧
    (l = 0 → Event.goExpirationCheck ∉ callsSince w (Table.Add k v l now w).2) ∧
    (w.table.items.lookup k = none →
      (Table.NotFoundAdd k v l now w).1 = true ∧
      callsSince w (Table.NotFoundAdd k v l now w).2 =
        callsSince w (Table.Add k v l now w).2) := by
  have hc : callsSince w (Table.Add k v l now w).2 =
      [Event.tableLock] ++
        (w.table.logger.map (fun sink => Event.println sink (.adding k l))).toList ++
        [Event.mapStore k, Event.tableUnlock] ++
        (w.table.addedItem.map (fun cb => Event.addedItem cb (NewItem k v l now))).toList ++
        (if l > 0 ∧ (w.table.cleanupInterval = 0 ∨ l < w.table.cleanupInterval)
          then [Event.goExpirationCheck] else []) := by
    rw [callsSince_of_trace w _ _ (Add_trace k v l now w)]
    simp [addCalls, NewItem]
  have hiff : Event.goExpirationCheck ∈ callsSince w (Table.Add k v l now w).2 ↔
      l > 0 ∧ (w.table.cleanupInterval = 0 ∨ l < w.table.cleanupInterval) := by
    rw [hc]
    cases w.table.logger <;> cases w.table.addedItem <;>
      by_cases hcond : l > 0 ∧ (w.table.cleanupInterval = 0 ∨ l < w.table.cleanupInterval) <;>
      simp [hcond]
  refine ⟨hc, hiff, ?_, ?_⟩
  · intro h0 hmem
    have := (hiff.mp hmem).1
    rw [h0] at this
    exact lt_irrefl _ this
  · intro hn
    rw [NotFoundAdd_of_lookup_none k v l now w hn]
    refine ⟨rfl, ?_⟩
    unfold callsSince
    rw [Add_trace, addInternal_trace]
    simp

/-- C19, on a table with the added-item callback 7 and the interval 80: adding with
lifetime 30 calls 7 and then starts a sweep; adding with lifetime 0 or 90 starts none. -/
theorem Add_triggers_sweep_iff_witness :
    callsSince callbackWorld (Table.Add 2 20 30 5 callbackWorld).2 =
      [Event.tableLock, Event.mapStore 2, Event.tableUnlock,
        Event.addedItem 7 (NewItem 2 20 30 5), Event.goExpirationCheck] ∧
    Event.goExpirationCheck ∉ callsSince callbackWorld (Table.Add 2 20 0 5 callbackWorld).2 ∧
    Event.goExpirationCheck ∉ callsSince callbackWorld (Table.Add 2 20 90 5 callbackWorld).2 :=
  ⟨(Add_triggers_sweep_iff callbackWorld 2 20 30 5).1.trans (by decide),
    (Add_triggers_sweep_iff callbackWorld 2 20 0 5).2.2.1 rfl,
    fun hm => absurd ((Add_triggers_sweep_iff callbackWorld 2 20 90 5).2.1.mp hm) (by decide)⟩

end CallbackTheorems

end Cache

/-! ## The table lock -/

namespace Cache

section LockTheorems

variable {K V : Type} [DecidableEq K]

/-- Scanning the calls of `deleteInternal`, entered with the lock held exclusive: every
callback is met with the lock free, and the lock is held exclusive again at the end. -/
theorem scan_deleteCalls (t : Table K V) (key : K) (item : Item K V)
    (rest : List (Event K V)) :
    scan .exclusive (deleteCalls t key item ++ rest) = scan .exclusive rest := by
  unfold deleteCalls
  cases t.aboutToDeleteItem <;> cases item.aboutToExpire <;> cases t.logger <;>
    simp [scan, Event.tableCall, Event.isCallback, lockStep]

/-- Scanning the calls of `addInternal`, entered with the lock held exclusive: the
callback is met with the lock free, and the lock is free at the end. -/
theorem scan_addCalls (t : Table K V) (item : Item K V) :
    scan .exclusive (addCalls t item) = .done .free := by
  unfold addCalls
  cases t.addedItem <;> cases t.logger <;>
    by_cases hc : item.lifeTime > 0 ∧ (t.cleanupInterval = 0 ∨ item.lifeTime < t.cleanupInterval) <;>
    simp [scan, Event.tableCall, Event.isCallback, lockStep, hc]

/-- Scanning calls that are neither mutex calls nor callbacks changes nothing. -/
theorem scan_neutral (s : LockState) (es rest : List (Event K V))
    (h : ∀ e ∈ es, e.tableCall = none ∧ e.isCallback = false) :
    scan s (es ++ rest) = scan s rest := by
  induction es with
  | nil => rfl
  | cons e es ih =>
    have he := h e (List.mem_cons_self e es)
    rw [List.cons_append, scan, he.1]
    simp only [he.2]
    simpa using ih (fun x hx => h x (List.mem_cons_of_mem e hx))

/-- Taking the free lock. -/
theorem scan_free_lock (es : List (Event K V)) :
    scan .free (Event.tableLock :: es) = scan .exclusive es := rfl

/-- The scan of `Add`. -/
theorem scan_Add (k : K) (v : V) (l : Duration) (now : Time) (w : World K V) :
    scan .free (callsSince w (Table.Add k v l now w).2) = .done .free := by
  rw [callsSince_of_trace w _ _ (Add_trace k v l now w)]
  simpa [scan, Event.tableCall, lockStep] using scan_addCalls w.table (NewItem k v l now)

/-- The calls of `NotFoundAdd`. -/
theorem NotFoundAdd_trace (k : K) (v : V) (l : Duration) (now : Time) (w : World K V) :
    (Table.NotFoundAdd k v l now w).2.trace =
      w.trace ++ ([Event.tableLock] ++
        (if (w.table.items.lookup k).isSome then [Event.tableUnlock]
          else addCalls w.table (NewItem k v l now))) := by
  cases h : w.table.items.lookup k with
  | some item =>
    rw [NotFoundAdd_of_lookup_some k v l now w item h]
    simp
  | none =>
    rw [NotFoundAdd_of_lookup_none k v l now w h]
    simp [addInternal_trace]

/-- The scan of `NotFoundAdd`. -/
theorem scan_NotFoundAdd (k : K) (v : V) (l : Duration) (now : Time) (w : World K V) :
    scan .free (callsSince w (Table.NotFoundAdd k v l now w).2) = .done .free := by
  rw [callsSince_of_trace w _ _ (NotFoundAdd_trace k v l now w)]
  cases h : (w.table.items.lookup k).isSome
  · simpa [scan, Event.tableCall, lockStep] using scan_addCalls w.table (NewItem k v l now)
  · simp [scan, Event.tableCall, lockStep]

/-- The calls of `Delete`. -/
theorem Delete_calls (k : K) (w : World K V) :
    callsSince w (Table.Delete k w).2 =
      match w.table.items.lookup k with
      | some item => [Event.tableLock] ++ deleteCalls w.table k item ++ [Event.tableUnlock]
      | none => [Event.tableLock, Event.tableUnlock] := by
  cases h : w.table.items.lookup k with
  | some item => exact callsSince_of_trace w _ _ (Delete_trace k w item h)
  | none =>
    apply callsSince_of_trace
    unfold Table.Delete Table.deleteInternal
    simp [h]

/-- The scan of `Delete`. -/
theorem scan_Delete (k : K) (w : World K V) :
    scan .free (callsSince w (Table.Delete k w).2) = .done .free := by
  rw [Delete_calls]
  cases h : w.table.items.lookup k with
  | some item =>
    change scan .free (Event.tableLock :: (deleteCalls w.table k item ++ [Event.tableUnlock])) = _
    rw [scan_free_lock, scan_deleteCalls]
    simp [scan, Event.tableCall, lockStep]
  | none => simp [scan, Event.tableCall, lockStep]

/-- The calls of `Flush`. -/
theorem Flush_calls (w : World K V) :
    callsSince w (Table.Flush w) =
      [Event.tableLock] ++
        (w.table.logger.map (fun sink => Event.println sink (.flushing w.table.name))).toList ++
        (w.table.cleanupTimer.map (fun _ => (Event.timerStop : Event K V))).toList ++
        [Event.tableUnlock] := by
  apply callsSince_of_trace
  unfold Table.Flush
  cases h1 : w.table.logger <;> cases h2 : w.table.cleanupTimer <;>
    simp [stopTimer_trace, log_trace, setInterval, setItems, h1, h2]

end LockTheorems

end Cache

/-! ## MostAccessed -/

namespace Cache

section RankingLemmas

variable {K V : Type} [DecidableEq K]

/-- A sorting function that keeps the promise of `sort.Sort` returns a list in which the
counts do not rise. -/
theorem pairwise_of_sortsByLess (sort : List (ItemPair K) → List (ItemPair K))
    (hsort : SortsByLess sort) (l : List (ItemPair K)) :
    (sort l).Pairwise (fun a b => b.AccessCount ≤ a.AccessCount) := by
  rw [List.pairwise_iff_getElem]
  intro i j hi hj hij
  have h := (hsort l).2 i j hij hj
  unfold ItemPairList.Less at h
  rw [List.getElem?_eq_getElem hj, List.getElem?_eq_getElem hi] at h
  simpa using h

/-- Insertion sort by falling count keeps the promise of `sort.Sort`. -/
theorem sortByCount_sorts : SortsByLess (sortByCount : List (ItemPair K) → List (ItemPair K)) := by
  intro l
  haveI : IsTotal (ItemPair K) (fun a b => b.AccessCount ≤ a.AccessCount) :=
    ⟨fun a b => le_total b.AccessCount a.AccessCount⟩
  haveI : IsTrans (ItemPair K) (fun a b => b.AccessCount ≤ a.AccessCount) :=
    ⟨fun _ _ _ h1 h2 => le_trans h2 h1⟩
  refine ⟨List.perm_insertionSort _ l, ?_⟩
  intro i j hij hj
  have hs : (sortByCount l).Pairwise (fun a b => b.AccessCount ≤ a.AccessCount) :=
    List.sorted_insertionSort (fun a b : ItemPair K => b.AccessCount ≤ a.AccessCount) l
  rw [List.pairwise_iff_getElem] at hs
  have hi : i < (sortByCount l).length := lt_trans hij hj
  have := hs i j hi hj hij
  unfold ItemPairList.Less
  rw [List.getElem?_eq_getElem hj, List.getElem?_eq_getElem hi]
  simpa using this

/-- The second loop of `MostAccessed` looks at the first `count - c` pairs and collects
the entries of those whose key is bound. -/
theorem mostAccessedLoop_eq (items : AList (fun _ : K => Item K V)) (count : Int)
    (vs : List (ItemPair K)) (c : Int) (r : List (Item K V)) :
    mostAccessedLoop items count vs c r =
      r ++ (vs.take (count - c).toNat).filterMap (fun v => items.lookup v.Key) := by
  induction vs generalizing c r with
  | nil => simp [mostAccessedLoop]
  | cons v vs ih =>
    unfold mostAccessedLoop
    by_cases hc : c ≥ count
    · have h0 : (count - c).toNat = 0 := by omega
      simp [hc, h0]
    · have h1 : (count - c).toNat = (count - (c + 1)).toNat + 1 := by omega
      rw [if_neg hc, h1, List.take_succ_cons, List.filterMap_cons]
      cases hl : items.lookup v.Key with
      | none => simp only [ih]
      | some item => simp only [ih]; simp

/-- The list `MostAccessed` returns. -/
theorem MostAccessed_ret (sort : List (ItemPair K) → List (ItemPair K)) (count : Int)
    (w : World K V) :
    (Table.MostAccessed sort count w).1 =
      ((sort (w.table.items.entries.map
          (fun e => (⟨e.1, e.2.accessCount⟩ : ItemPair K)))).take count.toNat).filterMap
        (fun v => w.table.items.lookup v.Key) := by
  unfold Table.MostAccessed
  simp [mostAccessedLoop_eq]

/-- Every pair of the snapshot names a bound key and carries the count of its entry. -/
theorem snapshot_lookup (items : AList (fun _ : K => Item K V)) (v : ItemPair K)
    (hv : v ∈ items.entries.map (fun e => (⟨e.1, e.2.accessCount⟩ : ItemPair K))) :
    ∃ it, items.lookup v.Key = some it ∧ it.accessCount = v.AccessCount := by
  obtain ⟨e, he, rfl⟩ := List.mem_map.mp hv
  obtain ⟨k, it⟩ := e
  exact ⟨it, AList.mem_lookup_iff.mpr he, rfl⟩

/-- Collecting the entries of pairs whose keys are all bound keeps every pair: the
lookups and the counts of the collected entries are those of the pairs. -/
theorem filterMap_lookup_all (items : AList (fun _ : K => Item K V)) (l : List (ItemPair K))
    (h : ∀ v ∈ l, ∃ it, items.lookup v.Key = some it ∧ it.accessCount = v.AccessCount) :
    (l.filterMap (fun v => items.lookup v.Key)).map some =
        l.map (fun v => items.lookup v.Key) ∧
    (l.filterMap (fun v => items.lookup v.Key)).map (fun it => it.accessCount) =
        l.map (fun v => v.AccessCount) := by
  induction l with
  | nil => simp
  | cons v l ih =>
    obtain ⟨it, hit, hac⟩ := h v (List.mem_cons_self v l)
    obtain ⟨i1, i2⟩ := ih (fun x hx => h x (List.mem_cons_of_mem v hx))
    rw [List.filterMap_cons, hit]
    simp [i1, i2, hit, hac]

/-- When the counts fall strictly in some rearrangement of a list, every sorting function
that keeps the promise of `sort.Sort` returns that rearrangement. -/
theorem sort_eq_of_strict (sort : List (ItemPair K) → List (ItemPair K))
    (hsort : SortsByLess sort) (l target : List (ItemPair K)) (hp : target.Perm l)
    (hs : target.Pairwise (fun a b => b.AccessCount < a.AccessCount)) :
    sort l = target := by
  haveI : IsAntisymm (ItemPair K) (fun a b => b.AccessCount < a.AccessCount) :=
    ⟨fun _ _ h1 h2 => absurd h1 (not_lt_of_gt h2)⟩
  have hperm : (sort l).Perm target := (hsort l).1.trans hp.symm
  have hnd : (target.map (fun a => a.AccessCount)).Nodup := by
    unfold List.Nodup
    rw [List.pairwise_map]
    exact hs.imp (fun h => (ne_of_lt h).symm)
  have hnd2 : (sort l).Pairwise (fun a b => a.AccessCount ≠ b.AccessCount) := by
    have : ((sort l).map (fun a => a.AccessCount)).Nodup :=
      ((hperm.map (fun a => a.AccessCount)).nodup_iff).mpr hnd
    unfold List.Nodup at this
    rwa [List.pairwise_map] at this
  have hle := pairwise_of_sortsByLess sort hsort l
  have hlt : (sort l).Pairwise (fun a b => b.AccessCount < a.AccessCount) := by
    refine (hle.and hnd2).imp ?_
    intro a b h
    exact lt_of_le_of_ne h.1 (Ne.symm h.2)
  exact List.eq_of_perm_of_sorted hperm hlt hs

end RankingLemmas

section RankingTheorem

variable {K V : Type} [DecidableEq K]

/-- C11: with `sort.Sort` any sorting function that keeps its promise, and `count` not
negative, `MostAccessed` returns exactly `min(count, n)` entries of a table with `n`
entries; they are the entries of distinct keys, their access counts do not rise along the
list, and no entry that is left out has a greater count than one in the list.  For
`count <= 0` the list is empty.  On the entries `a`, `b`, `c` read 5, 1 and 3 times,
`MostAccessed(2)` is `[a, c]`. -/
theorem MostAccessed_returns_top_count (sort : List (ItemPair K) → List (ItemPair K))
    (hsort : SortsByLess sort) (w : World K V) (count : Int) :
    (0 ≤ count →
      (((Table.MostAccessed sort count w).1.length : Int) =
        min count ((Table.Count w).1 : Int)) ∧
      (∃ ks : List K, ks.Nodup ∧
        ks.map (fun k => w.table.items.lookup k) = (Table.MostAccessed sort count w).1.map some ∧
        ∀ k it, k ∉ ks → w.table.items.lookup k = some it →
          ∀ x ∈ (Table.MostAccessed sort count w).1, it.accessCount ≤ x.accessCount) ∧
      (Table.MostAccessed sort count w).1.Pairwise
        (fun a b => b.accessCount ≤ a.accessCount)) ∧
    (count ≤ 0 → (Table.MostAccessed sort count w).1 = []) ∧
    (∀ sortN : List (ItemPair Nat) → List (ItemPair Nat), SortsByLess sortN →
      (Table.MostAccessed sortN 2 rankWorld).1 =
        [{ NewItem 1 10 0 0 with accessCount := 5 }, { NewItem 3 30 0 0 with accessCount := 3 }]) := by
  refine ⟨?_, ?_, ?_⟩
  · intro h0
    rw [MostAccessed_ret, Count_ret]
    have hperm := (hsort (w.table.items.entries.map
      (fun e => (⟨e.1, e.2.accessCount⟩ : ItemPair K)))).1
    have hpw := pairwise_of_sortsByLess sort hsort (w.table.items.entries.map
      (fun e => (⟨e.1, e.2.accessCount⟩ : ItemPair K)))
    generalize hs : sort (w.table.items.entries.map
      (fun e => (⟨e.1, e.2.accessCount⟩ : ItemPair K))) = s at hperm hpw ⊢
    have hall : ∀ v ∈ s.take count.toNat,
        ∃ it, w.table.items.lookup v.Key = some it ∧ it.accessCount = v.AccessCount :=
      fun v hv => snapshot_lookup w.table.items v
        (hperm.mem_iff.mp (List.mem_of_mem_take hv))
    obtain ⟨e1, e2⟩ := filterMap_lookup_all w.table.items (s.take count.toNat) hall
    have hslen : s.length = w.table.items.entries.length := by
      rw [hperm.length_eq, List.length_map]
    refine ⟨?_, ⟨(s.take count.toNat).map (fun v => v.Key), ?_, ?_, ?_⟩, ?_⟩
    · have hl := congrArg List.length e1
      simp only [List.length_map, List.length_take] at hl
      rw [hl, hslen]
      omega
    · have hkeys : (s.map (fun v => v.Key)).Nodup := by
        have hp2 := hperm.map (fun v => v.Key)
        rw [hp2.nodup_iff, List.map_map]
        exact w.table.items.nodupKeys
      exact List.Nodup.sublist ((List.take_sublist count.toNat s).map _) hkeys
    · rw [List.map_map, e1]
      rfl
    · intro k it hk hit x hx
      have hmem : (⟨k, it.accessCount⟩ : ItemPair K) ∈ s := by
        apply hperm.mem_iff.mpr
        exact List.mem_map.mpr ⟨⟨k, it⟩, AList.mem_lookup_iff.mp hit, rfl⟩
      rw [← List.take_append_drop count.toNat s] at hmem hpw
      have hdrop : (⟨k, it.accessCount⟩ : ItemPair K) ∈ s.drop count.toNat := by
        rcases List.mem_append.mp hmem with h | h
        · exact absurd (List.mem_map.mpr ⟨_, h, rfl⟩) hk
        · exact h
      have hx2 : x.accessCount ∈
          ((s.take count.toNat).filterMap (fun v => w.table.items.lookup v.Key)).map
            (fun it => it.accessCount) := List.mem_map.mpr ⟨x, hx, rfl⟩
      rw [e2] at hx2
      obtain ⟨a, ha, hae⟩ := List.mem_map.mp hx2
      have := (List.pairwise_append.mp hpw).2.2 a ha _ hdrop
      rw [← hae]
      exact this
    · have htk : (s.take count.toNat).Pairwise (fun a b => b.AccessCount ≤ a.AccessCount) :=
        hpw.sublist (List.take_sublist _ _)
      have h2 : (((s.take count.toNat).filterMap (fun v => w.table.items.lookup v.Key)).map
          (fun it => it.accessCount)).Pairwise (fun x y => y ≤ x) := by
        rw [e2, List.pairwise_map]
        exact htk
      rwa [List.pairwise_map] at h2
  · intro h0
    rw [MostAccessed_ret]
    have : count.toNat = 0 := by omega
    rw [this]
    rfl
  · intro sortN hN
    rw [MostAccessed_ret]
    have hsnap : rankWorld.table.items.entries.map
        (fun e => (⟨e.1, e.2.accessCount⟩ : ItemPair Nat)) = [⟨1, 5⟩, ⟨2, 1⟩, ⟨3, 3⟩] := by
      decide
    rw [hsnap, sort_eq_of_strict sortN hN [⟨1, 5⟩, ⟨2, 1⟩, ⟨3, 3⟩] [⟨1, 5⟩, ⟨3, 3⟩, ⟨2, 1⟩]
      (by decide) (by decide)]
    decide

/-- C11, with insertion sort for `sort.Sort`, on the entries `a`, `b`, `c` read 5, 1 and
3 times: `MostAccessed(2)` has two entries and is `[a, c]`; `MostAccessed(0)` is empty. -/
theorem MostAccessed_returns_top_count_witness :
    (((Table.MostAccessed sortByCount 2 rankWorld).1.length : Int) =
      min 2 ((Table.Count rankWorld).1 : Int)) ∧
    (Table.MostAccessed sortByCount 2 rankWorld).1 =
      [{ NewItem 1 10 0 0 with accessCount := 5 }, { NewItem 3 30 0 0 with accessCount := 3 }] ∧
    (Table.MostAccessed sortByCount 0 rankWorld).1 = [] :=
  ⟨((MostAccessed_returns_top_count sortByCount sortByCount_sorts rankWorld 2).1
      (by decide)).1,
    (MostAccessed_returns_top_count sortByCount sortByCount_sorts rankWorld 2).2.2
      sortByCount sortByCount_sorts,
    (MostAccessed_returns_top_count sortByCount sortByCount_sorts rankWorld 0).2.1
      (by decide)⟩

end RankingTheorem

end Cache

/-! ## Operations that end in a fatal error -/

namespace Cache

section FatalLemmas

variable {K V : Type} [DecidableEq K]

/-- The run of `Exists`: it ends at the deferred `table.Unlock()`. -/
theorem Exists_eq (key : K) (w : World K V) :
    Table.Exists key w = (none, emit .tableUnlock (emit .tableRLock w)) := rfl

/-- The run of `Value`: it ends at `table.Unlock()`, before anything is done with what
the lookup found. -/
theorem Value_eq (key : K) (args : List V) (now : Time) (w : World K V) :
    Table.Value key args now w = (none, emit .tableUnlock (emit .tableRLock w)) := rfl

/-- The run of `Foreach`: it ends at the deferred `table.Unlock()`, after the visits. -/
theorem Foreach_eq (visit : Callback) (w : World K V) :
    Table.Foreach visit w =
      (none, emit .tableUnlock
        (w.table.items.entries.foldl (fun w p => emit (.trans visit p.1 p.2) w)
          (emit .tableRLock w))) := rfl

/-- Once the pass has ended, the remaining iterations do nothing. -/
theorem expirationCheck_loop_dead (now : Time) (ks : List K) (w : World K V) :
    ks.foldl (expirationCheckBody now) (none, w) = (none, w) := by
  induction ks with
  | nil => rfl
  | cons k ks ih => exact ih

/-- An iteration on a key that is bound ends the pass at `item.Unlock()`. -/
theorem expirationCheckBody_bound (now : Time) (d : Duration) (w : World K V) (key : K)
    (item : Item K V) (h : w.table.items.lookup key = some item) :
    expirationCheckBody now (some d, w) key =
      (none, emit (.itemUnlock item.key) (emit (.itemRLock item.key) w)) := by
  unfold expirationCheckBody
  simp only [h]
  rfl

/-- The world in which the loop of a sweep pass starts, and the pass from there on. -/
theorem expirationCheck_start (now : Time) (w : World K V) :
    ∃ w1 : World K V,
      w1.table =
        { w.table with
          cleanupTimer := w.table.cleanupTimer.map (fun tm => { tm with active := false }) } ∧
      w1.trace = w.trace ++ ([Event.tableLock] ++
        (w.table.cleanupTimer.map (fun _ => (Event.timerStop : Event K V))).toList ++
        (w.table.logger.map (fun sink =>
          Event.println sink
            (if w.table.cleanupInterval > 0
              then .expirationTriggered w.table.cleanupInterval w.table.name
              else .expirationInstalled w.table.name))).toList) ∧
      Table.expirationCheck now w =
        match (w1.table.items.keys.foldl (expirationCheckBody now) (some 0, w1)).1 with
        | none => (none, (w1.table.items.keys.foldl (expirationCheckBody now) (some 0, w1)).2)
        | some smallestDuration =>
          (some (), emit .tableUnlock
            (if smallestDuration > 0
              then emit (.afterFunc smallestDuration)
                (setTimer (some ⟨smallestDuration, true⟩)
                  (setInterval smallestDuration
                    (w1.table.items.keys.foldl (expirationCheckBody now) (some 0, w1)).2))
              else setInterval smallestDuration
                (w1.table.items.keys.foldl (expirationCheckBody now) (some 0, w1)).2)) := by
  refine ⟨if (stopTimer (emit .tableLock w)).table.cleanupInterval > 0
      then Table.log (.expirationTriggered (stopTimer (emit .tableLock w)).table.cleanupInterval
        (stopTimer (emit .tableLock w)).table.name) (stopTimer (emit .tableLock w))
      else Table.log (.expirationInstalled (stopTimer (emit .tableLock w)).table.name)
        (stopTimer (emit .tableLock w)), ?_, ?_, ?_⟩
  · have : (stopTimer (emit .tableLock w)).table =
        { w.table with
          cleanupTimer := w.table.cleanupTimer.map (fun tm => { tm with active := false }) } := by
      rw [stopTimer_table]; rfl
    split <;> simp [this]
  · have hs : (stopTimer (emit .tableLock w)).table.cleanupInterval = w.table.cleanupInterval := by
      rw [stopTimer_table]; rfl
    have hn : (stopTimer (emit .tableLock w)).table.name = w.table.name := by
      rw [stopTimer_table]; rfl
    have hl : (stopTimer (emit .tableLock w)).table.logger = w.table.logger := by
      rw [stopTimer_table]; rfl
    rw [hs, hn]
    split <;> rename_i hc <;> simp [log_trace, stopTimer_trace, hl, hc]
  · rfl

/-- A sweep pass over a table that holds an entry: it ends at the `item.Unlock()` of the
first entry, with no result, the map and the interval as they were and the old timer
stopped. -/
theorem expirationCheck_of_bound (now : Time) (w : World K V) (k : K) (item : Item K V)
    (h : w.table.items.lookup k = some item) :
    ∃ (k0 : K) (item0 : Item K V) (w2 : World K V),
      w.table.items.lookup k0 = some item0 ∧
      Table.expirationCheck now w = (none, w2) ∧
      w2.table =
        { w.table with
          cleanupTimer := w.table.cleanupTimer.map (fun tm => { tm with active := false }) } ∧
      w2.trace = w.trace ++ ([Event.tableLock] ++
        (w.table.cleanupTimer.map (fun _ => (Event.timerStop : Event K V))).toList ++
        (w.table.logger.map (fun sink =>
          Event.println sink
            (if w.table.cleanupInterval > 0
              then .expirationTriggered w.table.cleanupInterval w.table.name
              else .expirationInstalled w.table.name))).toList ++
        [Event.itemRLock item0.key, Event.itemUnlock item0.key]) := by
  obtain ⟨w1, ht, htr, he⟩ := expirationCheck_start now w
  have hitems : w1.table.items = w.table.items := by rw [ht]
  have hkeys : w.table.items.keys ≠ [] := by
    intro hnil
    have hm : k ∈ w.table.items.keys := by
      rw [alist_mem_keys_iff, h]; rfl
    rw [hnil] at hm
    cases hm
  cases hk : w.table.items.keys with
  | nil => exact absurd hk hkeys
  | cons k0 rest =>
    have hm : k0 ∈ w.table.items.keys := by rw [hk]; exact List.mem_cons_self k0 rest
    obtain ⟨item0, h0⟩ := Option.isSome_iff_exists.mp ((alist_mem_keys_iff k0 _).mp hm)
    have h1 : w1.table.items.lookup k0 = some item0 := by rw [hitems]; exact h0
    refine ⟨k0, item0, emit (.itemUnlock item0.key) (emit (.itemRLock item0.key) w1), h0, ?_,
      ?_, ?_⟩
    · rw [he, hitems, hk, List.foldl_cons, expirationCheckBody_bound now 0 w1 k0 item0 h1,
        expirationCheck_loop_dead]
    · simpa using ht
    · simp [htr]

/-- A sweep pass over a table with no entries: it returns, with the interval 0 and no
new timer. -/
theorem expirationCheck_of_empty (now : Time) (w : World K V)
    (h : w.table.items.keys = []) :
    ∃ w2 : World K V,
      Table.expirationCheck now w = (some (), w2) ∧
      w2.table =
        { w.table with
          cleanupInterval := 0
          cleanupTimer := w.table.cleanupTimer.map (fun tm => { tm with active := false }) } ∧
      w2.trace = w.trace ++ ([Event.tableLock] ++
        (w.table.cleanupTimer.map (fun _ => (Event.timerStop : Event K V))).toList ++
        (w.table.logger.map (fun sink =>
          Event.println sink
            (if w.table.cleanupInterval > 0
              then .expirationTriggered w.table.cleanupInterval w.table.name
              else .expirationInstalled w.table.name))).toList ++
        [Event.tableUnlock]) := by
  obtain ⟨w1, ht, htr, he⟩ := expirationCheck_start now w
  have hitems : w1.table.items = w.table.items := by rw [ht]
  refine ⟨emit .tableUnlock (setInterval 0 w1), ?_, ?_, ?_⟩
  · rw [he, hitems, h]
    rfl
  · simp [setInterval, ht]
  · simp [setInterval, htr]

end FatalLemmas

end Cache

/-! ## The expiration sweep -/

namespace Cache

section SweepTheorems

variable {K V : Type} [DecidableEq K]

/-- A map has no keys or binds one. -/
theorem keys_nil_or_bound (m : AList (fun _ : K => Item K V)) :
    m.keys = [] ∨ ∃ k item, m.lookup k = some item := by
  cases hk : m.keys with
  | nil => exact Or.inl rfl
  | cons k rest =>
    have hm : k ∈ m.keys := by rw [hk]; exact List.mem_cons_self k rest
    obtain ⟨item, h⟩ := Option.isSome_iff_exists.mp ((alist_mem_keys_iff k m).mp hm)
    exact Or.inr ⟨k, item, h⟩

/-- A sweep pass never changes the map. -/
theorem expirationCheck_items (now : Time) (w : World K V) :
    (Table.expirationCheck now w).2.table.items = w.table.items := by
  rcases keys_nil_or_bound w.table.items with h | ⟨k, item, h⟩
  · obtain ⟨w2, he, ht, _⟩ := expirationCheck_of_empty now w h
    rw [he, ht]
  · obtain ⟨_, _, w2, _, he, ht, _⟩ := expirationCheck_of_bound now w k item h
    rw [he, ht]

/-- A sweep pass calls no callback and removes nothing from the map. -/
theorem expirationCheck_calls_plain (now : Time) (w : World K V) :
    ∀ e ∈ callsSince w (Table.expirationCheck now w).2,
      e.isCallback = false ∧ ∀ key, e ≠ Event.mapDelete key := by
  rcases keys_nil_or_bound w.table.items with h | ⟨k, item, h⟩
  · obtain ⟨w2, hr, _, htr⟩ := expirationCheck_of_empty now w h
    rw [hr]
    simp only []
    rw [callsSince_of_trace w w2 _ htr]
    cases w.table.cleanupTimer <;> cases w.table.logger <;> simp [Event.isCallback]
  · obtain ⟨_, item0, w2, _, hr, _, htr⟩ := expirationCheck_of_bound now w k item h
    rw [hr]
    simp only []
    rw [callsSince_of_trace w w2 _ htr]
    cases w.table.cleanupTimer <;> cases w.table.logger <;> simp [Event.isCallback]

/-- C1: a sweep pass over a table that holds an entry never returns and removes
nothing.  The loop calls `item.RLock()` and then `item.Unlock()` on the first entry it
meets, before any test of the lifetime; that unlock is a fatal error.  So the pass has no
result, the map is as it was, expired entries included, and the last two calls are the two
lock calls on an entry of the table. -/
theorem expirationCheck_ends_before_any_removal (now : Time) (w : World K V) (k : K)
    (item : Item K V) (h : w.table.items.lookup k = some item) :
    (Table.expirationCheck now w).1 = none ∧
    (Table.expirationCheck now w).2.table.items = w.table.items ∧
    (Table.expirationCheck now w).2.table.items.lookup k = some item ∧
    (∀ key, Event.mapDelete key ∉ callsSince w (Table.expirationCheck now w).2) ∧
    lockStep (.shared 0) .Unlock = none ∧
    ∃ (k0 : K) (item0 : Item K V) (before : List (Event K V)),
      w.table.items.lookup k0 = some item0 ∧
      callsSince w (Table.expirationCheck now w).2 =
        before ++ [Event.itemRLock item0.key, Event.itemUnlock item0.key] := by
  obtain ⟨k0, item0, w2, h0, hr, _, htr⟩ := expirationCheck_of_bound now w k item h
  refine ⟨?_, expirationCheck_items now w, ?_, ?_, rfl, k0, item0,
    [Event.tableLock] ++
      (w.table.cleanupTimer.map (fun _ => (Event.timerStop : Event K V))).toList ++
      (w.table.logger.map (fun sink =>
        Event.println sink
          (if w.table.cleanupInterval > 0
            then .expirationTriggered w.table.cleanupInterval w.table.name
            else .expirationInstalled w.table.name))).toList, h0, ?_⟩
  · rw [hr]
  · rw [expirationCheck_items]; exact h
  · intro key hmem
    exact (expirationCheck_calls_plain now w _ hmem).2 key rfl
  · rw [hr]
    simp only []
    rw [callsSince_of_trace w w2 _ htr]

/-- C1, on the sample table at time 100: the pass has no result, and key 1, whose
lifetime of 50 ran out at time 50, is still bound to its entry. -/
theorem expirationCheck_ends_before_any_removal_witness :
    (Table.expirationCheck 100 sampleWorld).1 = none ∧
    (Table.expirationCheck 100 sampleWorld).2.table.items.lookup 1 = some (NewItem 1 10 50 0) :=
  have h := expirationCheck_ends_before_any_removal 100 sampleWorld 1 (NewItem 1 10 50 0)
    (by decide)
  ⟨h.1, h.2.2.1⟩

/-- C2: the sliding scenario cannot be run on the code.  After `Add` of an entry with
lifetime `T` at `t0`, `Value` at `t1` does not return and leaves the entry with the
access time `t0`; a sweep at `t2` does not return and leaves the entry in the map,
whatever `t2 - t0` is; and `Exists` gives no answer. -/
theorem sliding_scenario_never_answers (w : World K V) (k : K) (v : V) (args : List V)
    (T : Duration) (t0 t1 t2 : Time) :
    (Table.Value k args t1 (Table.Add k v T t0 w).2).1 = none ∧
    (Table.Value k args t1 (Table.Add k v T t0 w).2).2.table.items.lookup k =
      some (NewItem k v T t0) ∧
    (Table.expirationCheck t2 (Table.Add k v T t0 w).2).1 = none ∧
    (Table.expirationCheck t2 (Table.Add k v T t0 w).2).2.table.items.lookup k =
      some (NewItem k v T t0) ∧
    (Table.Exists k (Table.Add k v T t0 w).2).1 = none ∧
    (Table.Exists k (Table.expirationCheck t2 (Table.Add k v T t0 w).2).2).1 = none := by
  have hadd : (Table.Add k v T t0 w).2.table.items.lookup k = some (NewItem k v T t0) := by
    rw [Add_table]; simp
  obtain ⟨_, _, w2, _, hr, _, _⟩ :=
    expirationCheck_of_bound t2 (Table.Add k v T t0 w).2 k _ hadd
  refine ⟨rfl, ?_, ?_, ?_, rfl, rfl⟩
  · rw [Value_eq]
    simpa using hadd
  · rw [hr]
  · rw [expirationCheck_items]
    exact hadd

/-- C12: an entry added with lifetime 0 does not make a sweep pass return: the pass ends
at the `item.Unlock()` of an entry, before the test `lifeTime == 0` is reached.  The entry
stays in the map, but `Exists` gives no answer, before the sweep or after it. -/
theorem lifetime_zero_entry_ends_the_sweep (w : World K V) (k : K) (v : V) (t0 now : Time) :
    (Table.expirationCheck now (Table.Add k v 0 t0 w).2).1 = none ∧
    (Table.expirationCheck now (Table.Add k v 0 t0 w).2).2.table.items.lookup k =
      some (NewItem k v 0 t0) ∧
    (Table.Exists k (Table.Add k v 0 t0 w).2).1 = none ∧
    (Table.Exists k (Table.expirationCheck now (Table.Add k v 0 t0 w).2).2).1 = none := by
  have hadd : (Table.Add k v 0 t0 w).2.table.items.lookup k = some (NewItem k v 0 t0) := by
    rw [Add_table]; simp
  obtain ⟨_, _, w2, _, hr, _, _⟩ :=
    expirationCheck_of_bound now (Table.Add k v 0 t0 w).2 k _ hadd
  refine ⟨?_, ?_, rfl, rfl⟩
  · rw [hr]
  · rw [expirationCheck_items]
    exact hadd

/-- C13: a sweep pass over a table that holds an entry never assigns `cleanupInterval`
and starts no timer: it ends in the loop, with the interval it found, the old timer
stopped and no `time.AfterFunc` among its calls.  Only on a table with no entries does
the pass return; the interval is then 0 and no sweep is pending. -/
theorem expirationCheck_never_sets_interval (now : Time) (w : World K V) :
    (∀ k item, w.table.items.lookup k = some item →
      (Table.expirationCheck now w).1 = none ∧
      (Table.expirationCheck now w).2.table.cleanupInterval = w.table.cleanupInterval ∧
      sweepPending (Table.expirationCheck now w).2.table = false ∧
      ∀ d, Event.afterFunc d ∉ callsSince w (Table.expirationCheck now w).2) ∧
    (w.table.items.keys = [] →
      (Table.expirationCheck now w).1 = some () ∧
      (Table.expirationCheck now w).2.table.cleanupInterval = 0 ∧
      sweepPending (Table.expirationCheck now w).2.table = false) := by
  constructor
  · intro k item h
    obtain ⟨_, item0, w2, _, hr, ht, htr⟩ := expirationCheck_of_bound now w k item h
    rw [hr]
    simp only []
    refine ⟨trivial, ?_, ?_, ?_⟩
    · rw [ht]
    · rw [ht]
      unfold sweepPending
      cases w.table.cleanupTimer <;> simp
    · intro d
      rw [callsSince_of_trace w w2 _ htr]
      cases w.table.cleanupTimer <;> cases w.table.logger <;> simp
  · intro h
    obtain ⟨w2, hr, ht, _⟩ := expirationCheck_of_empty now w h
    rw [hr]
    simp only []
    refine ⟨trivial, ?_, ?_⟩
    · rw [ht]
    · rw [ht]
      unfold sweepPending
      cases w.table.cleanupTimer <;> simp

/-- C13, on the sample table at time 100: key 3 has 100 left, so the interval should
become 100 and a sweep should be pending; the pass has no result, the interval is still
50 and no sweep is pending.  On the empty table the pass returns with the interval 0. -/
theorem expirationCheck_never_sets_interval_witness :
    (Table.expirationCheck 100 sampleWorld).1 = none ∧
    (Table.expirationCheck 100 sampleWorld).2.table.cleanupInterval = 50 ∧
    sweepPending (Table.expirationCheck 100 sampleWorld).2.table = false ∧
    (Table.expirationCheck 100 emptyWorld).1 = some () ∧
    (Table.expirationCheck 100 emptyWorld).2.table.cleanupInterval = 0 :=
  have h := (expirationCheck_never_sets_interval 100 sampleWorld).1 3 (NewItem 3 30 200 0)
    (by decide)
  have h2 := (expirationCheck_never_sets_interval 100 emptyWorld).2 rfl
  ⟨h.1, h.2.1, h.2.2.1, h2.1, h2.2.1⟩

end SweepTheorems

end Cache

/-! ## Value -/

namespace Cache

section ValueTheorems

variable {K V : Type} [DecidableEq K]

/-- The calls of `Value`. -/
theorem Value_calls (key : K) (args : List V) (now : Time) (w : World K V) :
    callsSince w (Table.Value key args now w).2 = [Event.tableRLock, Event.tableUnlock] := by
  apply callsSince_of_trace
  rw [Value_eq]
  simp

/-- C3: `Value` on a key that is present does not return an entry.  It calls
`table.RLock()` and then `table.Unlock()`, which is a fatal error; `KeepAlive` is never
reached, so the entry keeps its access time and its access count, and these two are the
only calls made. -/
theorem Value_hit_never_returns (w : World K V) (key : K) (args : List V) (now : Time)
    (item : Item K V) (h : w.table.items.lookup key = some item) :
    (Table.Value key args now w).1 = none ∧
    (Table.Value key args now w).2.table = w.table ∧
    (Table.Value key args now w).2.table.items.lookup key = some item ∧
    callsSince w (Table.Value key args now w).2 = [Event.tableRLock, Event.tableUnlock] ∧
    lockStep (.shared 0) .Unlock = none := by
  refine ⟨rfl, rfl, ?_, Value_calls key args now w, rfl⟩
  rw [Value_eq]
  simpa using h

/-- C3, on the sample table: `Value 3` at time 40 has no result, and the entry under key
3 still has the access time 0 and the access count 0. -/
theorem Value_hit_never_returns_witness :
    (Table.Value 3 [] 40 sampleWorld).1 = none ∧
    (Table.Value 3 [] 40 sampleWorld).2.table.items.lookup 3 = some (NewItem 3 30 200 0) :=
  have h := Value_hit_never_returns sampleWorld 3 [] 40 (NewItem 3 30 200 0) (by decide)
  ⟨h.1, h.2.2.1⟩

/-- C4: `Value` on a key that is absent returns neither error.  It ends at
`table.Unlock()`, before the test for a loader: the result is not `ErrKeyNotFound`, not
`ErrKeyNotFoundOrLoadable`, and the loader is not called. -/
theorem Value_miss_returns_no_error (w : World K V) (key : K) (args : List V) (now : Time)
    (h : w.table.items.lookup key = none) :
    (Table.Value key args now w).1 = none ∧
    (Table.Value key args now w).1 ≠ some (none, some Err.ErrKeyNotFound) ∧
    (Table.Value key args now w).1 ≠ some (none, some Err.ErrKeyNotFoundOrLoadable) ∧
    (∀ k a, Event.loadData k a ∉ callsSince w (Table.Value key args now w).2) ∧
    (Table.Value key args now w).2.table.items.lookup key = none := by
  refine ⟨rfl, ?_, ?_, ?_, ?_⟩
  · rw [Value_eq]; intro hc; cases hc
  · rw [Value_eq]; intro hc; cases hc
  · intro k a
    rw [Value_calls]
    simp
  · rw [Value_eq]
    simpa using h

/-- C4, on two tables: with no loader `Value 2` does not return `ErrKeyNotFound`; with
`sampleLoader`, which has nothing for key 2, it does not return
`ErrKeyNotFoundOrLoadable`; in both cases there is no result at all. -/
theorem Value_miss_returns_no_error_witness :
    (Table.Value 2 [] 0 emptyWorld).1 ≠ some (none, some Err.ErrKeyNotFound) ∧
    (Table.Value 2 [] 0 loaderWorld).1 ≠ some (none, some Err.ErrKeyNotFoundOrLoadable) ∧
    (Table.Value 2 [] 0 emptyWorld).1 = none ∧
    (Table.Value 2 [] 0 loaderWorld).1 = none :=
  ⟨(Value_miss_returns_no_error emptyWorld 2 [] 0 (by decide)).2.1,
    (Value_miss_returns_no_error loaderWorld 2 [] 0 (by decide)).2.2.1,
    (Value_miss_returns_no_error emptyWorld 2 [] 0 (by decide)).1,
    (Value_miss_returns_no_error loaderWorld 2 [] 0 (by decide)).1⟩

/-- C5: `Value` on a key that is absent, with a loader that has an entry for it, does
not succeed: it ends at `table.Unlock()`, the loader is not called, nothing is stored,
the key stays absent, and `Exists` gives no answer afterwards. -/
theorem Value_miss_never_loads (w : World K V) (key : K) (args : List V) (now : Time)
    (load : K → List V → Option (Item K V)) (e : Item K V)
    (h : w.table.items.lookup key = none) (_hl : w.table.loadData = some load)
    (_he : load key args = some e) :
    (Table.Value key args now w).1 = none ∧
    (Table.Value key args now w).2.table.items.lookup key = none ∧
    (∀ k a, Event.loadData k a ∉ callsSince w (Table.Value key args now w).2) ∧
    (∀ k, Event.mapStore k ∉ callsSince w (Table.Value key args now w).2) ∧
    (Table.Exists key (Table.Value key args now w).2).1 = none := by
  refine ⟨rfl, ?_, ?_, ?_, rfl⟩
  · rw [Value_eq]
    simpa using h
  · intro k a
    rw [Value_calls]
    simp
  · intro k
    rw [Value_calls]
    simp

/-- C5, with `sampleLoader`, which has an entry for key 1, on the empty table: `Value 1`
has no result and key 1 is still absent. -/
theorem Value_miss_never_loads_witness :
    (Table.Value 1 [] 20 loaderWorld).1 = none ∧
    (Table.Value 1 [] 20 loaderWorld).2.table.items.lookup 1 = none :=
  have h := Value_miss_never_loads loaderWorld 1 [] 20 sampleLoader
    ((NewItem 9 11 30 5).KeepAlive 6) (by decide) rfl (by decide)
  ⟨h.1, h.2.1⟩

/-- C20, as amended: in the statements of `Value` that follow the lookup, on a miss for
which the loader returns `e`, the entry returned is `e` itself, with the key, creation
time and access data the loader gave it; the entry stored under the key is a new one with
the requested key, the value and the lifetime of `e`, creation and access time `now` and
access count 0.  The two agree on value and lifetime. -/
theorem valueAfterLookup_returns_loader_item (w : World K V) (key : K) (args : List V)
    (now : Time) (load : K → List V → Option (Item K V)) (e : Item K V)
    (he : load key args = some e) :
    (Table.valueAfterLookup key args now none (some load) w).1 = (some e, none) ∧
    ∃ s, (Table.valueAfterLookup key args now none (some load) w).2.table.items.lookup key =
        some s ∧
      s.value = e.value ∧ s.lifeTime = e.lifeTime ∧
      s.key = key ∧ s.createdAt = now ∧ s.accessedAt = now ∧ s.accessCount = 0 ∧
      s.aboutToExpire = none := by
  have hv : Table.valueAfterLookup key args now none (some load) w =
      ((some e, none),
        (Table.Add key e.value e.lifeTime now (emit (.loadData key args) w)).2) := by
    unfold Table.valueAfterLookup
    simp only [he]
  rw [hv]
  refine ⟨rfl, NewItem key e.value e.lifeTime now, ?_, rfl, rfl, rfl, rfl, rfl, rfl, rfl⟩
  simp [Add_table]

/-- C20, as amended, with `sampleLoader` at time 20: the statements after the lookup
return the loader's item, whose key is 9, and store a new entry with key 1, value 11,
lifetime 30, created at 20. -/
theorem valueAfterLookup_returns_loader_item_witness :
    (Table.valueAfterLookup 1 [] 20 none (some sampleLoader) loaderWorld).1.1.map Item.Key =
      some 9 ∧
    ∃ s, (Table.valueAfterLookup 1 [] 20 none (some sampleLoader)
        loaderWorld).2.table.items.lookup 1 = some s ∧
      s.value = 11 ∧ s.lifeTime = 30 ∧ s.key = 1 ∧ s.createdAt = 20 := by
  obtain ⟨h1, s, h2, h3, h4, h5, h6, _⟩ :=
    valueAfterLookup_returns_loader_item loaderWorld 1 [] 20 sampleLoader
      ((NewItem 9 11 30 5).KeepAlive 6) (by decide)
  exact ⟨by rw [h1]; rfl, s, h2, h3, h4, h5, h6⟩

/-- C20 fails as stated: with `sampleLoader`, which has an entry for key 1, `Value 1` at
time 20 returns no entry and stores none, so no returned entry is the stored one.  And
the statements that follow the lookup, run on this miss, return an entry with the key 9,
created at 5 and read once, while the entry they store has the key 1, is created at 20
and has the access count 0. -/
theorem Value_returned_entry_not_stored_counterexample :
    (Table.Value 1 [] 20 loaderWorld).1 = none ∧
    (Table.Value 1 [] 20 loaderWorld).2.table.items.lookup 1 = none ∧
    (Table.valueAfterLookup 1 [] 20 none (some sampleLoader) loaderWorld).1.1 ≠
      (Table.valueAfterLookup 1 [] 20 none (some sampleLoader)
        loaderWorld).2.table.items.lookup 1 ∧
    (Table.valueAfterLookup 1 [] 20 none (some sampleLoader) loaderWorld).1.1.map Item.Key =
      some 9 ∧
    ((Table.valueAfterLookup 1 [] 20 none (some sampleLoader)
      loaderWorld).2.table.items.lookup 1).map Item.Key = some 1 ∧
    (Table.valueAfterLookup 1 [] 20 none (some sampleLoader)
      loaderWorld).1.1.map Item.CreatedAt = some 5 ∧
    ((Table.valueAfterLookup 1 [] 20 none (some sampleLoader)
      loaderWorld).2.table.items.lookup 1).map Item.CreatedAt = some 20 ∧
    (Table.valueAfterLookup 1 [] 20 none (some sampleLoader)
      loaderWorld).1.1.map Item.AccessCount = some 1 ∧
    ((Table.valueAfterLookup 1 [] 20 none (some sampleLoader)
      loaderWorld).2.table.items.lookup 1).map Item.AccessCount = some 0 := by
  decide

end ValueTheorems

end Cache

/-! ## The map at each call -/

namespace Cache

section SeenLemmas

variable {K V : Type} [DecidableEq K]

@[simp] theorem emit_seen (c : Event K V) (w : World K V) :
    (emit c w).seen = w.seen ++ [(c, w.table.items)] := rfl

/-- The calls since `w`, with the maps, of a run whose record extends that of `w`. -/
theorem seenSince_of_seen (w w2 : World K V)
    (es : List (Event K V × AList (fun _ : K => Item K V)))
    (h : w2.seen = w.seen ++ es) : seenSince w w2 = es := by
  unfold seenSince
  rw [h]
  simp

/-- The record after `deleteInternal` on a key that is bound: every call up to the log
line is made on the map as it was, the removal and the deferred unlock on the map without
the key. -/
theorem deleteInternal_seen (key : K) (w : World K V) (item : Item K V)
    (h : w.table.items.lookup key = some item) :
    (Table.deleteInternal key w).2.seen =
      w.seen ++
        (([Event.tableUnlock] ++
          (w.table.aboutToDeleteItem.map (fun cb => Event.aboutToDeleteItem cb item)).toList ++
          [Event.itemRLock item.key] ++
          (item.aboutToExpire.map (fun cb => Event.aboutToExpire cb key)).toList ++
          [Event.tableLock] ++
          (w.table.logger.map (fun sink =>
            Event.println sink
              (.deleting key item.createdAt item.accessCount w.table.name))).toList).map
            (fun c => (c, w.table.items)) ++
          [(Event.mapDelete key, w.table.items.erase key),
            (Event.itemRUnlock item.key, w.table.items.erase key)]) := by
  unfold Table.deleteInternal
  cases h1 : item.aboutToExpire <;> cases h2 : w.table.aboutToDeleteItem <;>
    cases h3 : w.table.logger <;> simp [h, h1, h2, h3, setItems, Table.log]

end SeenLemmas

end Cache

/-! ## Flush -/

namespace Cache

section FlushTheorem

variable {K V : Type} [DecidableEq K]

/-- C10: after `Flush` the count is 0, no key is bound in the map, `cleanupInterval` is 0
and no sweep is pending; the name, the logger and the installed callbacks are as
before. -/
theorem Flush_empties (w : World K V) :
    (Table.Count (Table.Flush w)).1 = 0 ∧
    (∀ k, (Table.Flush w).table.items.lookup k = none) ∧
    (Table.Flush w).table.cleanupInterval = 0 ∧
    sweepPending (Table.Flush w).table = false ∧
    (Table.Flush w).table.name = w.table.name ∧
    (Table.Flush w).table.loadData = w.table.loadData ∧
    (Table.Flush w).table.addedItem = w.table.addedItem ∧
    (Table.Flush w).table.aboutToDeleteItem = w.table.aboutToDeleteItem ∧
    (Table.Flush w).table.logger = w.table.logger := by
  refine ⟨?_, ?_, ?_, ?_, ?_, ?_, ?_, ?_, ?_⟩
  · rw [Count_ret, Flush_table]; rfl
  · intro k
    rw [Flush_table]; rfl
  · rw [Flush_table]
  · rw [Flush_table]
    unfold sweepPending
    cases w.table.cleanupTimer <;> simp
  · rw [Flush_table]
  · rw [Flush_table]
  · rw [Flush_table]
  · rw [Flush_table]
  · rw [Flush_table]

end FlushTheorem

end Cache

/-! ## Callbacks and the table lock -/

namespace Cache

section CallbackLockTheorems

variable {K V : Type} [DecidableEq K]

/-- The calls of `deleteInternal`. -/
theorem deleteInternal_calls (k : K) (w : World K V) :
    callsSince w (Table.deleteInternal k w).2 =
      match w.table.items.lookup k with
      | some item => deleteCalls w.table k item
      | none => [] := by
  cases h : w.table.items.lookup k with
  | some item => exact callsSince_of_trace w _ _ (deleteInternal_trace k w item h)
  | none =>
    apply callsSince_of_trace
    rw [deleteInternal_trace_miss k w h]
    simp

/-- The calls of the statements of `Value` that follow the lookup. -/
theorem valueAfterLookup_calls (k : K) (args : List V) (now : Time)
    (found : Option (Item K V)) (loader : Option (K → List V → Option (Item K V)))
    (w : World K V) :
    callsSince w (Table.valueAfterLookup k args now found loader w).2 =
      match found with
      | some item => [Event.itemLock item.key, Event.itemUnlock item.key]
      | none =>
        match loader with
        | none => []
        | some load =>
          [Event.loadData k args] ++
            match load k args with
            | none => []
            | some e =>
              [Event.tableLock] ++ addCalls w.table (NewItem k e.value e.lifeTime now) := by
  apply callsSince_of_trace
  unfold Table.valueAfterLookup
  cases found with
  | some item => simp [setItems, Item.KeepAlive]
  | none =>
    cases loader with
    | none => simp
    | some load =>
      cases he : load k args with
      | none => simp [he]
      | some e => simp [he, Add_trace]

/-- The calls of `Foreach`. -/
theorem Foreach_calls (visit : Callback) (w : World K V) :
    callsSince w (Table.Foreach visit w).2 =
      [Event.tableRLock] ++ w.table.items.entries.map (fun p => Event.trans visit p.1 p.2) ++
        [Event.tableUnlock] := by
  apply callsSince_of_trace
  rw [Foreach_eq]
  have hf : ∀ (l : List (Sigma fun _ : K => Item K V)) (w0 : World K V),
      (l.foldl (fun w p => emit (Event.trans visit p.1 p.2) w) w0).trace =
        w0.trace ++ l.map (fun p => Event.trans visit p.1 p.2) := by
    intro l
    induction l with
    | nil => intro w0; simp
    | cons p l ih => intro w0; simp [ih]
  simp [hf]

/-- The scan of `Value` ends at its second call. -/
theorem scan_Value (k : K) (args : List V) (now : Time) (w : World K V) :
    scan .free (callsSince w (Table.Value k args now w).2) = .stopped := by
  rw [Value_calls]
  simp [scan, Event.tableCall, lockStep]

/-- C16: scanned from a free table lock, the calls of `Add`, `NotFoundAdd` and `Delete`
run to their end with the lock free again, and no added-item, about-to-delete or expiry
callback is met while the lock is held; `deleteInternal`, which a sweep enters with the
lock held, gives the lock up before its callbacks and holds it again at its end.  A sweep
pass calls no callback at all.  `Value` makes two calls, `RLock` and `Unlock`, and none
of them is a callback; in the statements that follow them the loader is called with the
lock free. -/
theorem callbacks_run_without_table_lock (w : World K V) (k : K) (v : V) (l : Duration)
    (now : Time) (args : List V) :
    scan .free (callsSince w (Table.Add k v l now w).2) = .done .free ∧
    scan .free (callsSince w (Table.NotFoundAdd k v l now w).2) = .done .free ∧
    scan .free (callsSince w (Table.Delete k w).2) = .done .free ∧
    scan .exclusive (callsSince w (Table.deleteInternal k w).2) = .done .exclusive ∧
    (∀ c ∈ callsSince w (Table.expirationCheck now w).2, c.isCallback = false) ∧
    callsSince w (Table.Value k args now w).2 = [Event.tableRLock, Event.tableUnlock] ∧
    (∀ c ∈ callsSince w (Table.Value k args now w).2, c.isCallback = false) ∧
    (∀ found loader,
      scan .free (callsSince w (Table.valueAfterLookup k args now found loader w).2) =
        .done .free) := by
  refine ⟨scan_Add k v l now w, scan_NotFoundAdd k v l now w, scan_Delete k w, ?_, ?_,
    Value_calls k args now w, ?_, ?_⟩
  · rw [deleteInternal_calls]
    cases h : w.table.items.lookup k with
    | some item =>
      simpa using scan_deleteCalls w.table k item []
    | none => rfl
  · intro c hc
    exact (expirationCheck_calls_plain now w c hc).1
  · intro c hc
    rw [Value_calls] at hc
    simp at hc
    rcases hc with hc | hc <;> subst hc <;> rfl
  · intro found loader
    rw [valueAfterLookup_calls]
    cases found with
    | some item => simp [scan, Event.tableCall, Event.isCallback]
    | none =>
      cases loader with
      | none => simp [scan]
      | some load =>
        cases he : load k args with
        | none => simp [he, scan, Event.tableCall, Event.isCallback]
        | some e =>
          simpa [he, scan, Event.tableCall, Event.isCallback, lockStep] using
            scan_addCalls w.table (NewItem k e.value e.lifeTime now)

end CallbackLockTheorems

end Cache

/-! ## The order of callbacks and removal, and the mode of the unlock -/

namespace Cache

section OrderTheorems

variable {K V : Type} [DecidableEq K]

/-- C17: on a successful `Delete` of the entry `e` under `k` the calls are, in this
order: the about-to-delete callback of the table, if set, once with `e`; the expiry
callback of `e`, if set, once with `k`; and only later the removal of `k` from the map.
Every call up to the log line is made on the map as it was, so `k` is still bound to `e`
when each callback runs; the removal and the calls after it are made on the map without
`k`.  The same holds of `deleteInternal`, the deletion a sweep would make.  A sweep pass
itself makes no removal and calls no callback. -/
theorem delete_callbacks_before_removal (w : World K V) (k : K) (e : Item K V) (now : Time)
    (h : w.table.items.lookup k = some e) :
    (Table.Delete k w).1 = (some e, none) ∧
    callsSince w (Table.Delete k w).2 =
      [Event.tableLock, Event.tableUnlock] ++
        (w.table.aboutToDeleteItem.map (fun cb => Event.aboutToDeleteItem cb e)).toList ++
        [Event.itemRLock e.key] ++
        (e.aboutToExpire.map (fun cb => Event.aboutToExpire cb k)).toList ++
        [Event.tableLock] ++
        (w.table.logger.map (fun sink =>
          Event.println sink (.deleting k e.createdAt e.accessCount w.table.name))).toList ++
        [Event.mapDelete k, Event.itemRUnlock e.key, Event.tableUnlock] ∧
    seenSince w (Table.Delete k w).2 =
      ([Event.tableLock, Event.tableUnlock] ++
        (w.table.aboutToDeleteItem.map (fun cb => Event.aboutToDeleteItem cb e)).toList ++
        [Event.itemRLock e.key] ++
        (e.aboutToExpire.map (fun cb => Event.aboutToExpire cb k)).toList ++
        [Event.tableLock] ++
        (w.table.logger.map (fun sink =>
          Event.println sink
            (.deleting k e.createdAt e.accessCount w.table.name))).toList).map
          (fun c => (c, w.table.items)) ++
        [(Event.mapDelete k, w.table.items.erase k),
          (Event.itemRUnlock e.key, w.table.items.erase k),
          (Event.tableUnlock, w.table.items.erase k)] ∧
    (∀ p ∈ seenSince w (Table.Delete k w).2, p.1.isCallback = true → p.2.lookup k = some e) ∧
    (∀ p ∈ seenSince w (Table.deleteInternal k w).2,
      p.1.isCallback = true → p.2.lookup k = some e) ∧
    (w.table.items.erase k).lookup k = none ∧
    (Table.Delete k w).2.table.items.lookup k = none ∧
    (Table.expirationCheck now w).2.table.items = w.table.items ∧
    (∀ c ∈ callsSince w (Table.expirationCheck now w).2,
      c.isCallback = false ∧ ∀ key, c ≠ Event.mapDelete key) := by
  have hl : (emit Event.tableLock w).table.items.lookup k = some e := by simpa using h
  have hseen : seenSince w (Table.Delete k w).2 =
      ([Event.tableLock, Event.tableUnlock] ++
        (w.table.aboutToDeleteItem.map (fun cb => Event.aboutToDeleteItem cb e)).toList ++
        [Event.itemRLock e.key] ++
        (e.aboutToExpire.map (fun cb => Event.aboutToExpire cb k)).toList ++
        [Event.tableLock] ++
        (w.table.logger.map (fun sink =>
          Event.println sink
            (.deleting k e.createdAt e.accessCount w.table.name))).toList).map
          (fun c => (c, w.table.items)) ++
        [(Event.mapDelete k, w.table.items.erase k),
          (Event.itemRUnlock e.key, w.table.items.erase k),
          (Event.tableUnlock, w.table.items.erase k)] := by
    apply seenSince_of_seen
    unfold Table.Delete
    simp only [emit_seen, deleteInternal_seen k _ e hl, emit_table, deleteInternal_table]
    simp
  have hseenI := seenSince_of_seen w _ _ (deleteInternal_seen k w e h)
  refine ⟨?_, ?_, hseen, ?_, ?_, ?_, ?_, expirationCheck_items now w,
    expirationCheck_calls_plain now w⟩
  · rw [Delete_ret, h]
  · rw [callsSince_of_trace w _ _ (Delete_trace k w e h)]
    simp [deleteCalls]
  · intro p hp hcb
    rw [hseen] at hp
    rcases List.mem_append.mp hp with hp | hp
    · obtain ⟨c, _, hc⟩ := List.mem_map.mp hp
      rw [← hc]
      exact h
    · simp at hp
      rcases hp with hp | hp | hp <;> rw [hp] at hcb <;> cases hcb
  · intro p hp hcb
    rw [hseenI] at hp
    rcases List.mem_append.mp hp with hp | hp
    · obtain ⟨c, _, hc⟩ := List.mem_map.mp hp
      rw [← hc]
      exact h
    · simp at hp
      rcases hp with hp | hp <;> rw [hp] at hcb <;> cases hcb
  · rw [alist_lookup_erase]
    simp
  · rw [Delete_table]
    simp [alist_lookup_erase]

/-- C17, on a table with the about-to-delete callback 8 and an entry under key 1 with
the expiry callback 9: `Delete 1` calls 8 with the entry, then 9 with the key, each on a
map that still binds key 1, and then removes the key; a sweep at time 60, when the entry
has expired, removes nothing. -/
theorem delete_callbacks_before_removal_witness :
    seenSince callbackWorld (Table.Delete 1 callbackWorld).2 =
      [(Event.tableLock, callbackWorld.table.items),
        (Event.tableUnlock, callbackWorld.table.items),
        (Event.aboutToDeleteItem 8 { NewItem 1 10 50 0 with aboutToExpire := some 9 },
          callbackWorld.table.items),
        (Event.itemRLock 1, callbackWorld.table.items),
        (Event.aboutToExpire 9 1, callbackWorld.table.items),
        (Event.tableLock, callbackWorld.table.items),
        (Event.mapDelete 1, ∅), (Event.itemRUnlock 1, ∅), (Event.tableUnlock, ∅)] ∧
    (Table.expirationCheck 60 callbackWorld).2.table.items = callbackWorld.table.items :=
  have h := delete_callbacks_before_removal callbackWorld 1
    { NewItem 1 10 50 0 with aboutToExpire := some 9 } 60 (by decide)
  ⟨h.2.2.1, h.2.2.2.2.2.2.2.1⟩

/-- C18: `Exists` calls `RLock` and then `Unlock` on the table lock.  Scanned from a free
lock, its calls, those of `Foreach` and those of `Value` stop at that `Unlock`: the lock
is held shared, and an exclusive unlock of a lock that is held shared does not return.
`Count` and `MostAccessed`, which call `RUnlock`, run to their end with the lock free. -/
theorem shared_lock_released_with_Unlock (w : World K V) (k : K) (args : List V) (now : Time)
    (visit : Callback) (sort : List (ItemPair K) → List (ItemPair K)) (count : Int) :
    callsSince w (Table.Exists k w).2 = [Event.tableRLock, Event.tableUnlock] ∧
    lockStep (.shared 0) .Unlock = none ∧
    scan .free (callsSince w (Table.Exists k w).2) = .stopped ∧
    scan .free (callsSince w (Table.Foreach visit w).2) = .stopped ∧
    scan .free (callsSince w (Table.Value k args now w).2) = .stopped ∧
    scan .free (callsSince w (Table.Count w).2) = .done .free ∧
    scan .free (callsSince w (Table.MostAccessed sort count w).2) = .done .free := by
  have he : callsSince w (Table.Exists k w).2 = [Event.tableRLock, Event.tableUnlock] := by
    apply callsSince_of_trace
    rw [Exists_eq]
    simp
  have hc : callsSince w (Table.Count w).2 = [Event.tableRLock, Event.tableRUnlock] := by
    apply callsSince_of_trace
    simp [Table.Count]
  have hm : callsSince w (Table.MostAccessed sort count w).2 =
      [Event.tableRLock, Event.tableRUnlock] := by
    apply callsSince_of_trace
    simp [Table.MostAccessed]
  refine ⟨he, rfl, ?_, ?_, scan_Value k args now w, ?_, ?_⟩
  · rw [he]; rfl
  · rw [Foreach_calls]
    have hn : ∀ e ∈ w.table.items.entries.map (fun p => Event.trans visit p.1 p.2),
        (e : Event K V).tableCall = none ∧ e.isCallback = false := by
      intro e hmem
      obtain ⟨p, _, hp⟩ := List.mem_map.mp hmem
      subst hp
      exact ⟨rfl, rfl⟩
    change scan .free (Event.tableRLock ::
      (w.table.items.entries.map (fun p => Event.trans visit p.1 p.2) ++ [Event.tableUnlock])) = _
    have h1 : ∀ es : List (Event K V),
        scan .free (Event.tableRLock :: es) = scan (.shared 0) es := fun _ => rfl
    rw [h1, scan_neutral _ _ _ hn]
    rfl
  · rw [hc]; rfl
  · rw [hm]; rfl

end OrderTheorems

end Cache
